import Mathlib

/-!
Verification of the solar-eclipse sequencing tool.

The development shallowly embeds the Python sources:

* `Sem` — the compilation side (`src/sem/event.py`, `src/sem/semscript.py`,
  `src/sem/script.py`, `src/sequencer.py`; `src/sem.py` duplicates these
  classes verbatim).  Absolute times and durations are modelled as exact
  rationals (seconds): Python `datetime` arithmetic is exact integer
  microseconds, and the only inexactness (timedelta-times-float rounding to a
  whole microsecond) is idealized away.  Python exceptions are modelled as
  `Except String`; a function that an uncaught exception can escape returns
  `.error`.
* `SemCsv` — the serialization side (`src/sem/sequence.py`,
  `src/sem/action.py`, `src/sem/strconv.py`).  The `csv` module itself is
  abstracted to an exact record transport (one `Row` per line, cells carried
  verbatim), which is what it provides for the fixed eight-column schema.

Python text is modelled at the character level as `List Char` (named `Str`
below), with structural implementations of the string operations the sources
use (`split`, `int`, `float`, zero-padded formatting).
-/

deriving instance DecidableEq for Except

/-- Python strings, modelled as their character lists. -/
abbrev Str : Type := List Char

/-- Python `s.split(sep)` for a single-character separator and no `maxsplit`:
consecutive separators yield empty components. -/
def split_on_char (sep : Char) : Str → List Str
  | [] => [[]]
  | c :: rest =>
    let r := split_on_char sep rest
    if c = sep then [] :: r
    else
      match r with
      | [] => [[c]]
      | s :: ss => (c :: s) :: ss

namespace Sem

/-- One magnitude-table entry, `(magnitude fraction, absolute time)`.
Times are rationals (seconds on an absolute axis). -/
abbrev MagEntry : Type := ℚ × ℚ

/-- The inner `sub_search` of `find_bounds` (src/sem/event.py lines 17-25):
walk the (already enumerated) list, remembering the last item whose key
satisfies `check`, and stop at the first violation.  Returns `none` when the
list is empty or its very first item already fails `check`. -/
def sub_search (check : ℚ → Bool) : List (ℕ × MagEntry) → Option (ℕ × MagEntry)
  | [] => none
  | (i, x) :: rest =>
    if check x.1 then
      match sub_search check rest with
      | none => some (i, x)
      | some r => some r
    else none

/-- `find_bounds` (src/sem/event.py lines 10-31) with `key = fst`:
scan the enumerated sequence forward keeping the last entry with
magnitude `≤ target`, and scan the reversed enumerated sequence keeping the
last entry (i.e. the earliest in original order) with magnitude `≥ target`. -/
def find_bounds (sequence : List MagEntry) (target : ℚ) :
    Option (ℕ × MagEntry) × Option (ℕ × MagEntry) :=
  let seq_forward := sequence.enum
  let seq_reverse := seq_forward.reverse
  (sub_search (fun x => x ≤ target) seq_forward,
   sub_search (fun x => target ≤ x) seq_reverse)

/-- `EventManager.get_magnitude_time` (src/sem/event.py lines 85-100), with the
magnitude table passed explicitly.  The source unpacks
`lo_i, (lo_m, lo_t) = lo`; when a bound is absent (`None`) that unpacking
raises `TypeError`, modelled by `.error`.  When the two bounding magnitudes
are equal but the indices differ, `(magnitude - lo_m) / delta_m` raises
`ZeroDivisionError`, also modelled by `.error`. -/
def get_magnitude_time (mags : List MagEntry) (magnitude : ℚ) : Except String ℚ :=
  match find_bounds mags magnitude with
  | (some (lo_i, lo_m, lo_t), some (hi_i, hi_m, hi_t)) =>
    if lo_i = hi_i then
      .ok lo_t
    else
      let delta_m := hi_m - lo_m
      if delta_m = 0 then .error "ZeroDivisionError: division by zero"
      else
        let percent := (magnitude - lo_m) / delta_m
        let offset_t := (hi_t - lo_t) * percent
        .ok (lo_t + offset_t)
  | _ => .error "TypeError: cannot unpack non-iterable NoneType object"

/-- Association-list lookup modelling `name in self.events` /
`self.events[name]` on the Python dict. -/
def lookup_event (k : Str) : List (Str × ℚ) → Option ℚ
  | [] => none
  | (a, v) :: rest => if a = k then some v else lookup_event k rest

/-- `EventManager` (src/sem/event.py lines 34-44).  The `events` dict is an
association list keyed by event name. -/
structure EventManager where
  events : List (Str × ℚ)
  pre_magnitudes : List MagEntry
  post_magnitudes : List MagEntry
  max_magnitude : ℚ
  deriving DecidableEq

/-- The `EventManager.__init__` constructor (src/sem/event.py lines 36-44):
`post_magnitudes` are stored reversed, and `max_magnitude` defaults to 1 when
absent or zero (`max_magnitude or 1.0`). -/
def EventManager.init (events : List (Str × ℚ)) (pre_mags post_mags : List MagEntry)
    (max_magnitude : Option ℚ) : EventManager :=
  { events := events
    pre_magnitudes := pre_mags
    post_magnitudes := post_mags.reverse
    max_magnitude :=
      match max_magnitude with
      | none => 1
      | some m => if m = 0 then 1 else m }

/-- Method form of `get_magnitude_time`: select the post or pre table. -/
def EventManager.get_magnitude_time (em : EventManager) (magnitude : ℚ) (post : Bool) :
    Except String ℚ :=
  Sem.get_magnitude_time (if post then em.post_magnitudes else em.pre_magnitudes) magnitude

/-- Numeric value of a digit list (used by the `int(...)` model). -/
def digits_val (s : Str) : ℕ :=
  s.foldl (fun acc c => acc * 10 + (c.toNat - 48)) 0

/-- Python `int(...)` on a string, restricted to unsigned decimal numerals
(no sign, whitespace or underscores, which never occur in the data in play);
`none` corresponds to `ValueError`. -/
def parse_nat (s : Str) : Option ℕ :=
  if s ≠ [] ∧ s.all (fun c => c.isDigit) then some (digits_val s) else none

/-- Python `float(...)` restricted to the unsigned decimal numerals that occur
as magnitude percentages (`"150"`, `"00.0"`, ...).  Signs, exponents and
leading or trailing dots are not modelled; `none` corresponds to
`ValueError`. -/
def parse_float (s : Str) : Option ℚ :=
  match split_on_char '.' s with
  | [ip] => (parse_nat ip).map (fun n => (n : ℚ))
  | [ip, fp] =>
    match parse_nat ip, parse_nat fp with
    | some n, some f => some ((n : ℚ) + (f : ℚ) / (10 : ℚ) ^ fp.length)
    | _, _ => none
  | _ => none

/-- `EventManager.get_time` (src/sem/event.py lines 46-83).

After a `MAGPRE`/`MAGPOST` table lookup the source tests `if time:` and only
falls through to the contact-time interpolation when the lookup returned a
falsy value.  `get_magnitude_time` either returns a `datetime` — which is
always truthy — or raises; hence a successful lookup is returned as is, a
failed bounds search propagates the `TypeError`, and the fallback blocks
(lines 60-68 and 74-80) are unreachable.  The fallback expressions themselves
are transcribed separately as `magpre_fallback` / `magpost_fallback`.
An event name that matches no pattern logs an error and returns `None`, which
every caller immediately uses in arithmetic; modelled as `.error`. -/
def EventManager.get_time (em : EventManager) (name : Str) : Except String ℚ :=
  match lookup_event name em.events with
  | some t => .ok t
  | none =>
    match split_on_char ' ' name with
    | [ev, percent] =>
      if ev = "MAGPRE".toList then
        match parse_float percent with
        | none => .error "ValueError: could not convert string to float"
        | some p => em.get_magnitude_time (p / 100) false
      else if ev = "MAGPOST".toList then
        match parse_float percent with
        | none => .error "ValueError: could not convert string to float"
        | some p => em.get_magnitude_time (p / 100) true
      else .error "ResolutionError: get_time returned None"
    | _ => .error "ResolutionError: get_time returned None"

/-- The `MAGPRE` fallback block of `get_time` (src/sem/event.py lines 60-68),
transcribed from the source: scale the target fraction by `max_magnitude` and
interpolate linearly between the `C1` and `C2` contacts.  In the source this
code is unreachable (see `EventManager.get_time`). -/
def EventManager.magpre_fallback (em : EventManager) (p : ℚ) : Except String ℚ := do
  let pct := em.max_magnitude * (p / 100)
  let t1 ← em.get_time "C1".toList
  let t2 ← em.get_time "C2".toList
  .ok (t1 + (t2 - t1) * pct)

/-- The `MAGPOST` fallback block of `get_time` (src/sem/event.py lines 74-80):
interpolate between `C3` and `C4`, offset backward from `C4`.  Unreachable in
the source, like `magpre_fallback`. -/
def EventManager.magpost_fallback (em : EventManager) (p : ℚ) : Except String ℚ := do
  let pct := p / 100
  let t1 ← em.get_time "C3".toList
  let t2 ← em.get_time "C4".toList
  .ok (t2 - (t2 - t1) * pct)

/-- A concrete event table used by several witnesses: contacts at 0, 600,
1200, 1800 seconds, a two-knot pre-magnitude curve and a two-knot
post-magnitude curve (given in chronological, magnitude-descending order,
as they appear in a timing file). -/
def em0 : EventManager :=
  EventManager.init
    [("C1".toList, 0), ("C2".toList, 600), ("C3".toList, 1200),
     ("C4".toList, 1800), ("MAX".toList, 900)]
    [(0, 0), (1, 600)]
    [(1, 1200), (0, 1800)]
    (some 1)

/-- The compiled Action variants (`ActionTakePic` / `ActionPlay` in
src/sem/action.py): an absolute time plus kind-specific fields.  `ActionPlay`
is named `play` and `ActionTakePic` is named `takePic`. -/
inductive Action where
  | takePic (time : ℚ) (shutter aperture : ℚ) (iso : ℤ) (comment : Str)
  | play (time : ℚ) (soundfile : Str) (comment : Str)
  deriving DecidableEq

/-- The `time` attribute shared by both Action variants. -/
def Action.time : Action → ℚ
  | .takePic t _ _ _ _ => t
  | .play t _ _ => t

/-- The `comment` attribute shared by both Action variants. -/
def Action.comment : Action → Str
  | .takePic _ _ _ _ c => c
  | .play _ _ c => c

/-- `action.comment += s`. -/
def Action.add_comment (s : Str) : Action → Action
  | .takePic t sh ap iso c => .takePic t sh ap iso (c ++ s)
  | .play t f c => .play t f (c ++ s)

/-- `action.time += d`. -/
def Action.shift_time (d : ℚ) : Action → Action
  | .takePic t sh ap iso c => .takePic (t + d) sh ap iso c
  | .play t f c => .play (t + d) f c

/-- Leaf script commands (`Play` / `TakePic` in src/sem/semscript.py), with
the fields their `generate_actions` methods read.  `offset` is the parsed
signed time delta, `shutter` the parsed shutter seconds. -/
inductive Leaf where
  | play (event : Str) (offset : ℚ) (file : Str) (comment : Str)
  | takePic (event : Str) (offset : ℚ) (shutter aperture : ℚ) (iso : ℤ) (comment : Str)
  deriving DecidableEq

/-- The `event` attribute of a leaf command. -/
def Leaf.event : Leaf → Str
  | .play e _ _ _ => e
  | .takePic e _ _ _ _ _ => e

/-- `Play.generate_actions` / `TakePic.generate_actions`
(src/sem/semscript.py lines 197-203 and 236-243): resolve the event name
(or the `override_event` keyword argument when supplied), add the signed
offset, and emit exactly one Action.  A `None` from `get_time` would raise
`TypeError` in `get_time(event) + self.offset`; either way the error
propagates to the caller. -/
def Leaf.generate_actions (c : Leaf) (events : EventManager) (override_event : Option Str) :
    Except String (List Action) :=
  match events.get_time (override_event.getD c.event) with
  | .error e => .error e
  | .ok t =>
    match c with
    | .play _ offset file comment => .ok [.play (t + offset) file comment]
    | .takePic _ offset shutter aperture iso comment =>
        .ok [.takePic (t + offset) shutter aperture iso comment]

/-- The character of a decimal digit (any input 9 or above maps to '9'; all
uses keep the argument below 10). -/
def digit_char : ℕ → Char
  | 0 => '0'
  | 1 => '1'
  | 2 => '2'
  | 3 => '3'
  | 4 => '4'
  | 5 => '5'
  | 6 => '6'
  | 7 => '7'
  | 8 => '8'
  | _ => '9'

/-- Fuel-driven decimal numeral construction (most significant digit first);
structural in the fuel so that concrete instances reduce. -/
def nat_repr_aux : ℕ → ℕ → Str
  | 0, _ => []
  | fuel + 1, n =>
    if n < 10 then [digit_char n]
    else nat_repr_aux fuel (n / 10) ++ [digit_char (n % 10)]

/-- The decimal numeral of a natural number (Python `str(n)`, `n ≥ 0`). -/
def nat_repr (n : ℕ) : Str := nat_repr_aux (n + 1) n

/-- Zero-pad a numeral to a given width, Python `%0Nd` (never truncates). -/
def pad_num (width n : ℕ) : Str :=
  List.replicate (width - (nat_repr n).length) '0' ++ nat_repr n

/-- The Python format spec `04.1f` used for the loop variable
(src/sem/semscript.py line 77): one decimal digit, sign-aware zero-padding to
a total width of four.  The value is first rounded to a tenth; float
formatting rounds ties to even, modelled here by `round`, which agrees on
every concretely used value. -/
def format_fixed1 (q : ℚ) : Str :=
  let n : ℤ := round (q * 10)
  let a : ℕ := n.natAbs
  let body : Str := nat_repr (a / 10) ++ '.' :: nat_repr (a % 10)
  let sign : Str := if n < 0 then ['-'] else []
  sign ++ List.replicate (4 - (sign.length + body.length)) '0' ++ body

/-- `ForVarLoop` (src/sem/semscript.py lines 38-86).  The source field `end`
is called `stop` here because `end` is reserved in Lean. -/
structure ForVarLoop where
  start : ℚ
  step : ℚ
  stop : ℚ
  commands : List Leaf
  deriving DecidableEq

/-- One execution of the inner `for c in self.commands` body of
`ForVarLoop.generate_actions` (src/sem/semscript.py lines 76-85): format the
loop variable to one decimal, split the child's event name
(`c.event.split(' ', maxsplit=2)` unpacked into exactly two names — any
other arity raises `ValueError`), generate the child under the override
event `event ++ " " ++ var`, append the magnitude note to the comments of
`MAGPRE`/`MAGPOST` children, and advance `value` by `step`.  Note the
advance happens here, inside the per-child loop. -/
def ForVarLoop.child_step (L : ForVarLoop) (events : EventManager) (c : Leaf) (value : ℚ) :
    Except String (List Action × ℚ) :=
  let var := format_fixed1 value
  match split_on_char ' ' c.event with
  | [event, _post] =>
    match c.generate_actions events (some (event ++ ' ' :: var)) with
    | .error e => .error e
    | .ok more =>
      let more :=
        if event = "MAGPRE".toList ∨ event = "MAGPOST".toList then
          more.map (Action.add_comment (" (Mag. ".toList ++ var ++ "%)".toList))
        else more
      .ok (more, value + L.step)
  | _ => .error "ValueError: unpacking event split failed"

/-- One full pass of the inner `for c in self.commands` loop, threading the
accumulating actions and the loop variable through the children in order. -/
def ForVarLoop.pass_children (L : ForVarLoop) (events : EventManager) :
    List Leaf → ℚ → Except String (List Action × ℚ)
  | [], value => .ok ([], value)
  | c :: cs, value =>
    match L.child_step events c value with
    | .error e => .error e
    | .ok (acts, v2) =>
      match L.pass_children events cs v2 with
      | .error e => .error e
      | .ok (rest, v3) => .ok (acts ++ rest, v3)

/-- The `while value < end` loop of `ForVarLoop.generate_actions`
(src/sem/semscript.py lines 72-86).  The source loop need not terminate (for
instance with an empty children list and `start < end`), so the model takes
explicit fuel counting whole passes; `none` means the computation did not
finish within the given fuel. -/
def ForVarLoop.run (L : ForVarLoop) (events : EventManager) :
    ℕ → ℚ → Option (Except String (List Action))
  | 0, _ => none
  | fuel + 1, value =>
    if value < L.stop then
      match L.pass_children events L.commands value with
      | .error e => some (.error e)
      | .ok (acts, v2) =>
        match L.run events fuel v2 with
        | none => none
        | some (.error e) => some (.error e)
        | some (.ok rest) => some (.ok (acts ++ rest))
    else some (.ok [])

/-- `ForVarLoop.generate_actions`, starting the loop at `value = start`. -/
def ForVarLoop.generate_actions (L : ForVarLoop) (events : EventManager) (fuel : ℕ) :
    Option (Except String (List Action)) :=
  L.run events fuel L.start

/-- Python `int(...)` applied to a float: truncation toward zero. -/
def trunc_q (q : ℚ) : ℤ := if q < 0 then ⌈q⌉ else ⌊q⌋

/-- `ForIterLoop` (src/sem/semscript.py lines 89-143): `kind` 0 means the
accumulated offset steps backward, any other kind steps forward. -/
structure ForIterLoop where
  kind : ℤ
  delay : ℚ
  iters : ℕ
  commands : List Leaf
  deriving DecidableEq

/-- The inner `for c in self.commands` body of one iteration `i` of
`ForIterLoop.generate_actions` (src/sem/semscript.py lines 131-138):
`microsec = int(value * 100) * 10_000` truncates the running offset to whole
centiseconds before converting it to a duration (`var`, here in seconds);
each child's actions are generated unmodified, shifted by `var`, and tagged
with the 1-based iteration number formatted `03d`. -/
def ForIterLoop.iter_body (L : ForIterLoop) (events : EventManager) (i : ℕ) (value : ℚ) :
    List Leaf → Except String (List Action)
  | [] => .ok []
  | c :: cs =>
    let microsec : ℤ := trunc_q (value * 100) * 10000
    let var : ℚ := (microsec : ℚ) / 1000000
    match c.generate_actions events none with
    | .error e => .error e
    | .ok more =>
      let more := more.map (fun a =>
        (a.shift_time var).add_comment (" (iter. ".toList ++ pad_num 3 (i + 1) ++ ")".toList))
      match L.iter_body events i value cs with
      | .error e => .error e
      | .ok rest => .ok (more ++ rest)

/-- The outer `for i in range(self.iters)` loop of
`ForIterLoop.generate_actions` (src/sem/semscript.py lines 127-143), with
the iteration counter and the remaining count explicit: after each
iteration's child pass, `value` advances by `-delay` when `kind = 0` and by
`+delay` otherwise. -/
def ForIterLoop.run_from (L : ForIterLoop) (events : EventManager) :
    ℕ → ℕ → ℚ → Except String (List Action)
  | _, 0, _ => .ok []
  | i, n + 1, value =>
    match L.iter_body events i value L.commands with
    | .error e => .error e
    | .ok acts =>
      let value2 := if L.kind = 0 then value - L.delay else value + L.delay
      match L.run_from events (i + 1) n value2 with
      | .error e => .error e
      | .ok rest => .ok (acts ++ rest)

/-- `ForIterLoop.generate_actions`: `value` starts at 0, `i` at 0. -/
def ForIterLoop.generate_actions (L : ForIterLoop) (events : EventManager) :
    Except String (List Action) :=
  L.run_from events 0 L.iters 0

/-- Parser-level commands (the `ScriptCommand` subclasses of
src/sem/semscript.py): the two loop kinds, leaf commands, and the transient
`ForLoopEnd` marker produced for an `ENDFOR` line. -/
inductive Command where
  | forVar (start step stop : ℚ) (commands : List Leaf)
  | forIter (kind : ℤ) (delay : ℚ) (iters : ℕ) (commands : List Leaf)
  | leaf (c : Leaf)
  | loopEnd
  deriving DecidableEq

/-- The `is_nestable` method: true exactly for the two loop commands. -/
def Command.is_nestable : Command → Bool
  | .forVar .. => true
  | .forIter .. => true
  | .leaf _ => false
  | .loopEnd => false

/-- State of `ScriptParser` (src/sem/script.py lines 42-44): the accumulated
top-level command list and the parser stack.  The stack can hold at most one
open loop, and the pushed loop is the same object as the last element of the
script's command list (children appended through the stack are visible in
the script), so it is modelled by a flag marking the script's last command
as the open loop. -/
structure ParserState where
  script : List Command
  opened : Bool
  deriving DecidableEq

/-- `ScriptParser._add_command` (src/sem/script.py lines 98-109) combined
with the `add_command` methods of the commands themselves: with a non-empty
stack, a nestable child raises, a `ForLoopEnd` closes (pops) the loop, and a
leaf is appended to the open loop's children only.  With an empty stack the
command is appended to the top-level list, and pushed if it is nestable —
note a `ForLoopEnd` is not nestable, so with an empty stack it is silently
appended to the top-level list. -/
def add_command (st : ParserState) (c : Command) : Except String ParserState :=
  if st.opened then
    match st.script.getLast? with
    | some (Command.forVar start step stop cs) =>
      if c.is_nestable then .error "ValueError: cannot nest nestables"
      else
        match c with
        | .leaf lf =>
            .ok { script := st.script.dropLast ++ [Command.forVar start step stop (cs ++ [lf])]
                  opened := true }
        | _ => .ok { st with opened := false }
    | some (Command.forIter kind delay iters cs) =>
      if c.is_nestable then .error "ValueError: cannot nest nestables"
      else
        match c with
        | .leaf lf =>
            .ok { script := st.script.dropLast ++ [Command.forIter kind delay iters (cs ++ [lf])]
                  opened := true }
        | _ => .ok { st with opened := false }
    | _ => .error "AttributeError: stack top is not a loop"
  else
    .ok { script := st.script ++ [c], opened := c.is_nestable }

/-- Fold `_add_command` over a list of parsed commands, as `_parse_script`
does line by line (src/sem/script.py lines 54-69); the first raised error
aborts the parse. -/
def add_commands : ParserState → List Command → Except String ParserState
  | st, [] => .ok st
  | st, c :: cs =>
    match add_command st c with
    | .error e => .error e
    | .ok st2 => add_commands st2 cs

/-- Top-level `generate_actions` dispatch for one command.
`ForLoopEnd.generate_actions` raises
`ValueError("ENDFOR should never actually be in scripts")`
(src/sem/semscript.py lines 165-166). -/
def Command.generate_actions (events : EventManager) (fuel : ℕ) :
    Command → Option (Except String (List Action))
  | .forVar start step stop cs =>
      ForVarLoop.generate_actions ⟨start, step, stop, cs⟩ events fuel
  | .forIter kind delay iters cs =>
      some (ForIterLoop.generate_actions ⟨kind, delay, iters, cs⟩ events)
  | .leaf c => some (c.generate_actions events none)
  | .loopEnd => some (.error "ValueError: ENDFOR should never actually be in scripts")

/-- The action-collection loop of `Script.generate_sequence`
(src/sem/script.py lines 29-36): concatenate the actions generated by each
top-level command in order; the first raised error aborts. -/
def generate_script_actions (events : EventManager) (fuel : ℕ) :
    List Command → Option (Except String (List Action))
  | [] => some (.ok [])
  | c :: cs =>
    match c.generate_actions events fuel with
    | none => none
    | some (.error e) => some (.error e)
    | some (.ok acts) =>
      match generate_script_actions events fuel cs with
      | none => none
      | some (.error e) => some (.error e)
      | some (.ok rest) => some (.ok (acts ++ rest))

/-- The control loop of `Sequencer.execute` (src/sequencer.py lines 78-93)
under an idealized clock, recorded per action (only the scheduled times
matter): the entry is `none` when the action is skipped (`delay < 0`: no
sleep, no dispatch, clock unchanged) and `some delay` when the loop blocks
for `delay ≥ 0` and then dispatches.  Idealization: sleeping for `d`
advances the clock by exactly `d`, and dispatch hands the action to the
thread pool without consuming loop time. -/
def execute_schedule : List ℚ → ℚ → List (Option ℚ)
  | [], _ => []
  | t :: ts, now =>
    let delay := t - now
    if delay < 0 then none :: execute_schedule ts now
    else some delay :: execute_schedule ts t

/-- The idealized clock value at the moment the control loop reaches the
i-th action of the list. -/
def clock_at : List ℚ → ℚ → ℕ → ℚ
  | _, now, 0 => now
  | [], now, _ + 1 => now
  | t :: ts, now, i + 1 => clock_at ts (if t - now < 0 then now else t) i

/-- The actions one `ForIterLoop` iteration contributes, expressed
per child: each child's generated actions shifted by the running offset
truncated to whole centiseconds and tagged with the 1-based iteration
number.  Used to state the characterization of `ForIterLoop.run_from`. -/
def iter_tagged (gen : Leaf → List Action) (cs : List Leaf) (i : ℕ) (value : ℚ) : List Action :=
  (cs.map (fun c => (gen c).map (fun a =>
    (a.shift_time (((trunc_q (value * 100) * 10000 : ℤ) : ℚ) / 1000000)).add_comment
      (" (iter. ".toList ++ pad_num 3 (i + 1) ++ ")".toList)))).join

/-- A concrete capture child on the `MAGPRE 10` event, used by concrete
evaluations below. -/
def mag_leaf_a : Leaf := .takePic "MAGPRE 10".toList 0 1 8 100 "a".toList

/-- A concrete capture child on the `MAGPRE 20` event. -/
def mag_leaf_b : Leaf := .takePic "MAGPRE 20".toList 0 1 8 100 "b".toList

/-- A concrete play child on the `C2` contact with offset 400 s, so its base
time under `em0` is 1000 s. -/
def c2_leaf : Leaf := .play "C2".toList 400 "horn.mp3".toList "p".toList

end Sem

namespace SemCsv

/-- Python `datetime` values as carried by Actions: the seven components,
all naturals.  Validity (`datetime.__init__` raising `ValueError` on
out-of-range components) is checked by `mk_datetime` below. -/
structure DateTime where
  year : ℕ
  month : ℕ
  day : ℕ
  hour : ℕ
  minute : ℕ
  second : ℕ
  micro : ℕ
  deriving DecidableEq

/-- The component list, most significant first; Python compares `datetime`
values exactly by this lexicographic order. -/
def DateTime.fields (t : DateTime) : List ℕ :=
  [t.year, t.month, t.day, t.hour, t.minute, t.second, t.micro]

/-- Lexicographic comparison of equal-length component lists, the order
`datetime.__lt__`/`__le__` implements. -/
def lex_le : List ℕ → List ℕ → Bool
  | [], _ => true
  | _ :: _, [] => false
  | a :: as, b :: bs => if a < b then true else if b < a then false else lex_le as bs

/-- `a.time <= b.time` on datetimes. -/
def dt_le (a b : DateTime) : Bool := lex_le a.fields b.fields

/-- `format_date` (src/sem/strconv.py lines 6-8): `strftime('%Y/%m/%d')`,
zero-padded components. -/
def format_date (t : DateTime) : Str :=
  Sem.pad_num 4 t.year ++ '/' :: (Sem.pad_num 2 t.month ++ '/' :: Sem.pad_num 2 t.day)

/-- `format_time` (src/sem/strconv.py lines 11-13):
`strftime('%H:%M:%S.%f')[:-5]` — the full microsecond field is printed as
six digits and the last five characters are then cut off, leaving the
tenths digit (truncation, not rounding). -/
def format_time (t : DateTime) : Str :=
  let full := Sem.pad_num 2 t.hour ++ ':' ::
    (Sem.pad_num 2 t.minute ++ ':' :: (Sem.pad_num 2 t.second ++ '.' :: Sem.pad_num 6 t.micro))
  full.take (full.length - 5)

/-- Whether a year is a leap year (Gregorian rule, as `datetime` uses). -/
def is_leap (y : ℕ) : Bool := y % 4 = 0 ∧ (y % 100 ≠ 0 ∨ y % 400 = 0)

/-- Days in a month, as validated by the `datetime` constructor. -/
def days_in_month (y m : ℕ) : ℕ :=
  if m = 2 then (if is_leap y then 29 else 28)
  else if m = 4 ∨ m = 6 ∨ m = 9 ∨ m = 11 then 30
  else 31

/-- The `datetime(...)` constructor: raises `ValueError` (modelled by
`.error`) when any component is out of range. -/
def mk_datetime (y mo d h mi s micro : ℕ) : Except String DateTime :=
  if 1 ≤ y ∧ y ≤ 9999 ∧ 1 ≤ mo ∧ mo ≤ 12 ∧ 1 ≤ d ∧ d ≤ days_in_month y mo ∧
      h ≤ 23 ∧ mi ≤ 59 ∧ s ≤ 59 ∧ micro ≤ 999999 then
    .ok ⟨y, mo, d, h, mi, s, micro⟩
  else .error "ValueError: component out of range for datetime"

/-- `parse_date_time` (src/sem/strconv.py lines 45-62): split the date on
`/` into exactly three integers, the time on `:` into exactly three parts,
the seconds part on `.` into whole seconds and a tenths numeral, convert
`micro = tenths * 100_000`, and build the `datetime`; every failure raises
`ValueError`. -/
def parse_date_time (date_str time_str : Str) : Except String DateTime :=
  match (split_on_char '/' date_str).mapM Sem.parse_nat with
  | some [y4, m2, d2] =>
    match split_on_char ':' time_str with
    | [hh, mm, sst] =>
      match Sem.parse_nat hh, Sem.parse_nat mm with
      | some h, some m =>
        match split_on_char '.' sst with
        | [ss, tenths] =>
          match Sem.parse_nat ss, Sem.parse_nat tenths with
          | some s, some ten => mk_datetime y4 m2 d2 h m s (ten * 100000)
          | _, _ => .error "ValueError: failed to parse date-time string"
        | _ => .error "ValueError: failed to parse date-time string"
      | _, _ => .error "ValueError: failed to parse date-time string"
    | _ => .error "ValueError: failed to parse date-time string"
  | _ => .error "ValueError: failed to parse date-time string"

/-- One CSV record with the eight fixed columns of `FIELD_NAMES`
(src/sem/fields.py); cells are carried verbatim by the `csv` module. -/
structure Row where
  date : Str
  time_utc : Str
  action : Str
  shutter_speed : Str
  aperture : Str
  iso : Str
  file : Str
  comment : Str
  deriving DecidableEq

/-- A Python value held in one of an Action's kind-specific attributes.
The attributes are dynamically typed: `TakePic.generate_actions`
(src/sem/semscript.py lines 209-243) builds `ActionTakePic` objects whose
`shutter` and `aperture` are floats and whose `iso` is an int, while
`Sequence._make_action` rebuilds Actions whose every attribute is the
string read from the file.  Floats are idealized as exact rationals, as
throughout the `Sem` model. -/
inductive PyVal where
  | str (s : Str)
  | int (n : ℤ)
  | float (q : ℚ)
  deriving DecidableEq

/-- Python `str()` on an int: an optional minus sign and the decimal
digits. -/
def int_repr (n : ℤ) : Str :=
  if n < 0 then '-' :: Sem.nat_repr n.natAbs else Sem.nat_repr n.natAbs

/-- The decimal digits of the fractional part `q ∈ [0, 1)` of a float, most
significant first, stopping at zero (so without trailing zeros).  Python
`str()` on a float prints its shortest round-tripping decimal; for a float
idealized as an exact decimal rational these are exactly the fractional
digits, and 17 significant digits always suffice. -/
def frac_digits : ℕ → ℚ → List ℕ
  | 0, _ => []
  | fuel + 1, q =>
    if q = 0 then []
    else (⌊q * 10⌋).toNat :: frac_digits fuel (q * 10 - (⌊q * 10⌋).toNat)

/-- Python `str()` on a non-negative float idealized as an exact decimal
rational: the integer part, a dot, and the fractional digits — with a
single `'0'` when there are none, as Python prints `8.0`, never `8`. -/
def float_repr_nonneg (q : ℚ) : Str :=
  Sem.nat_repr (⌊q⌋).toNat ++ '.' ::
    (if frac_digits 17 (q - ⌊q⌋) = [] then ['0']
     else (frac_digits 17 (q - ⌊q⌋)).map Sem.digit_char)

/-- Python `str()` on a float. -/
def float_repr (q : ℚ) : Str :=
  if q < 0 then '-' :: float_repr_nonneg (-q) else float_repr_nonneg q

/-- The text the `csv` module writes for a cell value: strings verbatim,
anything else through `str()`. -/
def PyVal.render : PyVal → Str
  | .str s => s
  | .int n => int_repr n
  | .float q => float_repr q

/-- The serialization-side Action variants (`ActionTakePic` / `ActionPlay`,
src/sem/action.py): the timestamp plus the kind-specific attributes, each a
dynamically typed Python value. -/
inductive SAction where
  | takePic (time : DateTime) (shutter aperture iso comment : PyVal)
  | play (time : DateTime) (soundfile comment : PyVal)
  deriving DecidableEq

/-- The `time` attribute of a serialization-side Action. -/
def SAction.time : SAction → DateTime
  | .takePic t _ _ _ _ => t
  | .play t _ _ => t

/-- `Action.as_dict` (src/sem/action.py lines 61-66 and 93-97) as a record,
with each cell value converted to text by `csv.DictWriter` as `str()` does:
a `PICT` row leaves the `file` column blank, a `PLAY` row leaves the
exposure columns blank (`DictWriter` fills missing fields with an empty
string). -/
def SAction.as_row : SAction → Row
  | .takePic t sh ap iso c =>
      ⟨format_date t, format_time t, "PICT".toList,
       sh.render, ap.render, iso.render, [], c.render⟩
  | .play t f c =>
      ⟨format_date t, format_time t, "PLAY".toList, [], [], [],
       f.render, c.render⟩

/-- The header row emitted by `csv.DictWriter.writeheader`: each cell is
its column name. -/
def header_row : Row :=
  ⟨"date".toList, "time_utc".toList, "action".toList, "shutter_speed".toList,
   "aperture".toList, "iso".toList, "file".toList, "comment".toList⟩

/-- `Sequence.write_csv` (src/sem/sequence.py lines 22-29): a header row
followed by one row per action, in sequence order. -/
def write_csv (actions : List SAction) : List Row :=
  header_row :: actions.map SAction.as_row

/-- `Sequence._make_action` (src/sem/sequence.py lines 43-65): a literal
header row yields no action; otherwise the timestamp is parsed (an error
here propagates), and the action-kind tag is dispatched — `PICT` and `PLAY`
reconstruct the matching variant, any other tag falls off the end of the
`match` and yields `None` (skipped). -/
def _make_action (r : Row) : Except String (Option SAction) :=
  if r.date = "date".toList then .ok none
  else
    match parse_date_time r.date r.time_utc with
    | .error e => .error e
    | .ok time =>
      if r.action = "PICT".toList then
        .ok (some (.takePic time (.str r.shutter_speed) (.str r.aperture)
          (.str r.iso) (.str r.comment)))
      else if r.action = "PLAY".toList then
        .ok (some (.play time (.str r.file) (.str r.comment)))
      else .ok none

/-- `Sequence.read_csv` (src/sem/sequence.py lines 32-40): build an action
per row in order, keeping the non-`None` ones; an exception raised by
`_make_action` propagates and aborts the whole read. -/
def read_csv : List Row → Except String (List SAction)
  | [] => .ok []
  | r :: rs =>
    match _make_action r with
    | .error e => .error e
    | .ok a? =>
      match read_csv rs with
      | .error e => .error e
      | .ok rest =>
        match a? with
        | some a => .ok (a :: rest)
        | none => .ok rest

/-- `Sequence.__init__` (src/sem/sequence.py lines 16-19):
`self.actions = list(sorted(self.actions))`.  Python `sorted` is a stable
sort driven by `Action.__lt__`, which compares `time` only; any stable sort
with respect to the total preorder `dt_le` computes the same list, so the
model uses `List.mergeSort`. -/
def sequence_init (actions : List SAction) : List SAction :=
  actions.mergeSort (fun a b => dt_le a.time b.time)

/-- The invariant every constructed Python `datetime` satisfies (enforced by
its constructor): exactly the condition `mk_datetime` checks. -/
def DateTime.valid (t : DateTime) : Prop :=
  1 ≤ t.year ∧ t.year ≤ 9999 ∧ 1 ≤ t.month ∧ t.month ≤ 12 ∧ 1 ≤ t.day ∧
  t.day ≤ days_in_month t.year t.month ∧ t.hour ≤ 23 ∧ t.minute ≤ 59 ∧
  t.second ≤ 59 ∧ t.micro ≤ 999999

instance (t : DateTime) : Decidable t.valid := by
  unfold DateTime.valid
  infer_instance

/-- Truncation (not rounding) of a timestamp to one-tenth-second
resolution: the sub-tenth part of the microsecond field is dropped. -/
def DateTime.trunc_tenths (t : DateTime) : DateTime :=
  { t with micro := t.micro / 100000 * 100000 }

/-- Truncation of an Action's timestamp to one-tenth-second resolution;
every other field untouched. -/
def SAction.trunc_tenths : SAction → SAction
  | .takePic t sh ap iso c => .takePic t.trunc_tenths sh ap iso c
  | .play t f c => .play t.trunc_tenths f c

/-- Each kind-specific field replaced by the string the `csv` module writes
for it.  On an Action whose fields are already strings (anything built by
`_make_action`) this is the identity; on a compiled Action it replaces the
float/int exposure values by their decimal renderings. -/
def SAction.str_fields : SAction → SAction
  | .takePic t sh ap iso c =>
      .takePic t (.str sh.render) (.str ap.render) (.str iso.render) (.str c.render)
  | .play t f c => .play t (.str f.render) (.str c.render)

/-- A well-formed capture row at 12:00:01.0. -/
def row_late : Row :=
  ⟨"2024/04/08".toList, "12:00:01.0".toList, "PICT".toList, "1".toList,
   "8".toList, "100".toList, [], "x".toList⟩

/-- A well-formed capture row at 12:00:00.0. -/
def row_early : Row :=
  ⟨"2024/04/08".toList, "12:00:00.0".toList, "PICT".toList, "1".toList,
   "8".toList, "100".toList, [], "y".toList⟩

/-- A row whose timestamp cell is not parseable. -/
def row_bad_time : Row :=
  ⟨"2024/04/08".toList, "xx:yy:zz.w".toList, "PICT".toList, "1".toList,
   "8".toList, "100".toList, [], "bad".toList⟩

/-- A row with a well-formed timestamp but an unknown action-kind tag. -/
def row_unknown_kind : Row :=
  ⟨"2024/04/08".toList, "12:00:02.0".toList, "WAIT".toList, [],
   [], [], [], "unk".toList⟩

/-- A capture Action as `TakePic.generate_actions`
(src/sem/semscript.py lines 209-243) compiles it: `shutter_sec = 1/500` and
`aperture = 8.0` are floats, `iso = 100` is an int, the comment a string. -/
def compiled_pic : SAction :=
  .takePic ⟨2024, 4, 8, 18, 40, 1, 900000⟩ (.float (1/500)) (.float 8)
    (.int 100) (.str "c".toList)

end SemCsv

namespace Sem

theorem length_execute_schedule (ts : List ℚ) (now : ℚ) :
    (execute_schedule ts now).length = ts.length := by
  induction ts generalizing now with
  | nil => rfl
  | cons t ts ih =>
    rw [execute_schedule]
    by_cases h : t - now < 0 <;> simp [h, ih]

/-- C9: an action whose scheduled time is already in the past when the
control loop reaches it is skipped — not dispatched, no sleep, and the clock
is unchanged for the next action; an action whose delay is non-negative is
dispatched after blocking for exactly that delay. -/
theorem execute_skips_past_actions (ts : List ℚ) (now : ℚ) (i : ℕ) (t : ℚ)
    (ht : ts[i]? = some t) :
    (t < clock_at ts now i →
      (execute_schedule ts now)[i]? = some none ∧
      clock_at ts now (i + 1) = clock_at ts now i) ∧
    (clock_at ts now i ≤ t →
      (execute_schedule ts now)[i]? = some (some (t - clock_at ts now i)) ∧
      0 ≤ t - clock_at ts now i) := by
  induction ts generalizing now i with
  | nil => simp at ht
  | cons x xs ih =>
    cases i with
    | zero =>
      simp only [List.getElem?_cons_zero, Option.some_inj] at ht
      subst ht
      have hcl0 : ∀ (l : List ℚ) (c : ℚ), clock_at l c 0 = c := by
        intro l c; cases l <;> rfl
      have hcl1 : clock_at (x :: xs) now 1 = if x - now < 0 then now else x := by
        show clock_at xs (if x - now < 0 then now else x) 0 = _
        rw [hcl0]
      have hex : execute_schedule (x :: xs) now =
          (if x - now < 0 then none else some (x - now)) ::
            execute_schedule xs (if x - now < 0 then now else x) := by
        rw [execute_schedule]
        by_cases h : x - now < 0 <;> simp [h]
      refine ⟨fun h => ?_, fun h => ?_⟩
      · rw [hcl0] at h
        have hneg : x - now < 0 := by linarith
        rw [hex, hcl1, hcl0, if_pos hneg, if_pos hneg]
        exact ⟨by simp, rfl⟩
      · rw [hcl0] at h
        have hnn : ¬ x - now < 0 := by linarith
        rw [hex, hcl0, if_neg hnn]
        exact ⟨by simp, by linarith⟩
    | succ j =>
      simp only [List.getElem?_cons_succ] at ht
      have hcl : ∀ k, clock_at (x :: xs) now (k + 1) =
          clock_at xs (if x - now < 0 then now else x) k := fun k => rfl
      have hex : execute_schedule (x :: xs) now =
          (if x - now < 0 then none else some (x - now)) ::
            execute_schedule xs (if x - now < 0 then now else x) := by
        rw [execute_schedule]
        by_cases h : x - now < 0 <;> simp [h]
      have := ih (if x - now < 0 then now else x) j ht
      refine ⟨fun h => ?_, fun h => ?_⟩
      · rw [hcl] at h ⊢
        obtain ⟨h1, h2⟩ := this.1 h
        refine ⟨?_, by rw [hcl, h2]⟩
        rw [hex]; simpa using h1
      · rw [hcl] at h
        obtain ⟨h1, h2⟩ := this.2 h
        rw [hcl, hex]
        exact ⟨by simpa using h1, h2⟩

/-- Witness for C9: with scheduled times 10, 5, 20 and the clock starting at
0, the second action (time 5) is reached when the idealized clock already
stands at 10, so it is skipped with no sleep and no clock change. -/
theorem execute_skips_past_actions_witness :
    (execute_schedule ([10, 5, 20] : List ℚ) 0)[1]? = some none ∧
    clock_at ([10, 5, 20] : List ℚ) 0 2 = clock_at ([10, 5, 20] : List ℚ) 0 1 :=
  (execute_skips_past_actions [10, 5, 20] 0 1 5 rfl).1 (by norm_num [clock_at])

/-- C4 is a code bug: a `ForLoopEnd` arriving with an empty parser stack is
not rejected — `_add_command` appends it to the top-level command list (it is
not nestable, so it is not pushed either) and parsing succeeds; the failure
only surfaces when `generate_actions` is later invoked on the retained
marker, which raises `ValueError("ENDFOR should never actually be in
scripts")`. -/
theorem endfor_empty_stack_retained :
    add_command ⟨[], false⟩ Command.loopEnd = .ok ⟨[Command.loopEnd], false⟩ ∧
    add_commands ⟨[], false⟩ [Command.loopEnd] = .ok ⟨[Command.loopEnd], false⟩ ∧
    generate_script_actions em0 1 [Command.loopEnd] =
      some (.error "ValueError: ENDFOR should never actually be in scripts") := by
  refine ⟨rfl, rfl, rfl⟩

/-- C1 is a code bug: for a `MAGPRE p` / `MAGPOST p` event whose target
fraction lies outside the observed magnitude range, `get_magnitude_time`
does not report "no answer" — unpacking the absent bound returned by
`find_bounds` raises `TypeError`, which propagates out of `get_time`, so the
contact-interpolation fallback (which is well defined on the same table, as
the last two conjuncts show) is never reached. -/
theorem magnitude_out_of_range_raises :
    em0.get_time "MAGPRE 150".toList =
      .error "TypeError: cannot unpack non-iterable NoneType object" ∧
    em0.get_time "MAGPOST 150".toList =
      .error "TypeError: cannot unpack non-iterable NoneType object" ∧
    em0.magpre_fallback 150 = .ok 900 ∧
    em0.magpost_fallback 150 = .ok 900 := by
  refine ⟨?_, ?_, ?_, ?_⟩
  · simp [em0, EventManager.init, EventManager.get_time,
      EventManager.get_magnitude_time, Sem.get_magnitude_time, find_bounds,
      sub_search, parse_float, parse_nat, digits_val, split_on_char, lookup_event]
    norm_num [sub_search]
  · simp [em0, EventManager.init, EventManager.get_time,
      EventManager.get_magnitude_time, Sem.get_magnitude_time, find_bounds,
      sub_search, parse_float, parse_nat, digits_val, split_on_char, lookup_event]
    norm_num [sub_search]
  · simp [em0, EventManager.init, EventManager.magpre_fallback,
      EventManager.get_time, lookup_event, split_on_char, Except.bind, Bind.bind]
    norm_num
  · simp [em0, EventManager.init, EventManager.magpost_fallback,
      EventManager.get_time, lookup_event, split_on_char, Except.bind, Bind.bind]
    norm_num

theorem iter_body_eq (L : ForIterLoop) (events : EventManager) (gen : Leaf → List Action)
    (i : ℕ) (value : ℚ) :
    ∀ cs : List Leaf, (∀ c ∈ cs, c.generate_actions events none = .ok (gen c)) →
      L.iter_body events i value cs = .ok (iter_tagged gen cs i value) := by
  intro cs h
  induction cs with
  | nil => rfl
  | cons c cs ih =>
    rw [ForIterLoop.iter_body, h c (List.mem_cons_self c cs),
      ih (fun d hd => h d (List.mem_cons_of_mem c hd))]
    simp [iter_tagged]

theorem run_from_eq (L : ForIterLoop) (events : EventManager) (gen : Leaf → List Action)
    (hgen : ∀ c ∈ L.commands, c.generate_actions events none = .ok (gen c)) :
    ∀ (n i : ℕ) (v : ℚ), L.run_from events i n v = .ok
      (((List.range n).map (fun k => iter_tagged gen L.commands (i + k)
        (v + k * (if L.kind = 0 then -L.delay else L.delay)))).join) := by
  intro n
  induction n with
  | zero => intro i v; simp [ForIterLoop.run_from]
  | succ n ih =>
    intro i v
    rw [ForIterLoop.run_from, iter_body_eq L events gen i v L.commands hgen]
    simp only [ih, List.range_succ_eq_map, List.map_cons, List.join_cons, List.map_map,
      Nat.add_zero, Nat.cast_zero, zero_mul, add_zero, Function.comp]
    refine congrArg Except.ok
      (congrArg (fun l => iter_tagged gen L.commands i v ++ l)
        (congrArg List.join (List.map_congr_left fun k _ => ?_)))
    by_cases hk : L.kind = 0
    · simp only [hk, if_pos]
      rw [show i + 1 + k = i + (k + 1) by omega]
      rw [show v - L.delay + (k : ℚ) * -L.delay = v + (((k + 1) : ℕ) : ℚ) * -L.delay by
        push_cast; ring]
      simp [Function.comp]
    · rw [if_neg hk, if_neg hk]
      rw [show i + 1 + k = i + (k + 1) by omega]
      rw [show v + L.delay + (k : ℚ) * L.delay = v + (((k + 1) : ℕ) : ℚ) * L.delay by
        push_cast; ring]
      simp [Function.comp, hk]

/-- C7: `LoopByCount` generates, for each iteration `k` of `0 ≤ k < iters`,
every child's actions shifted by the accumulated offset `k * delay` (negated
for the backward direction, `kind = 0`) truncated to whole centiseconds
before conversion to a duration, each comment tagged with the 1-based
iteration number; the offset starts at zero and advances by `± delay` once
per iteration. -/
theorem for_iter_loop_offsets (L : ForIterLoop) (events : EventManager)
    (gen : Leaf → List Action)
    (hgen : ∀ c ∈ L.commands, c.generate_actions events none = .ok (gen c)) :
    L.generate_actions events = .ok
      (((List.range L.iters).map (fun k => iter_tagged gen L.commands k
        ((k : ℚ) * (if L.kind = 0 then -L.delay else L.delay)))).join) := by
  rw [ForIterLoop.generate_actions, run_from_eq L events gen hgen L.iters 0 0]
  congr 1
  refine congrArg List.join (List.map_congr_left fun k _ => ?_)
  rw [show 0 + k = k by omega]
  rw [show (0 : ℚ) + (k : ℚ) * (if L.kind = 0 then -L.delay else L.delay) =
    (k : ℚ) * (if L.kind = 0 then -L.delay else L.delay) by ring]

theorem sub_search_spec (check : ℚ → Bool) :
    ∀ (P : List (ℕ × MagEntry)) (x : ℕ × MagEntry) (Q : List (ℕ × MagEntry)),
      (∀ p ∈ P ++ [x], check p.2.1 = true) →
      (∀ y, Q.head? = some y → check y.2.1 = false) →
      sub_search check (P ++ x :: Q) = some x := by
  intro P
  induction P with
  | nil =>
    intro x Q hall hQ
    rcases x with ⟨i, xe⟩
    have hx : check xe.1 = true := hall (i, xe) (by simp)
    cases Q with
    | nil => simp [sub_search, hx]
    | cons y ys =>
      rcases y with ⟨j, ye⟩
      have hy : check ye.1 = false := hQ (j, ye) rfl
      simp [sub_search, hx, hy]
  | cons p P ih =>
    intro x Q hall hQ
    rcases p with ⟨i, pe⟩
    have hp : check pe.1 = true := hall (i, pe) (by simp)
    have hrest := ih x Q (fun q hq => hall q (List.mem_cons_of_mem _ hq)) hQ
    simp [sub_search, hp, hrest]

theorem enumFrom_append_eq {α : Type} :
    ∀ (l₁ : List α) (n : ℕ) (l₂ : List α),
      List.enumFrom n (l₁ ++ l₂) = List.enumFrom n l₁ ++ List.enumFrom (n + l₁.length) l₂ := by
  intro l₁
  induction l₁ with
  | nil => intro n l₂; simp
  | cons a l ih =>
    intro n l₂
    simp only [List.cons_append, List.enumFrom_cons, ih, List.length_cons]
    rw [show n + (l.length + 1) = n + 1 + l.length by omega]

theorem enum_decomp (mags : List MagEntry) (k : ℕ) (hk : k < mags.length) :
    mags.enum = (mags.take k).enum ++
      (k, mags.get ⟨k, hk⟩) :: List.enumFrom (k + 1) (mags.drop (k + 1)) := by
  conv_lhs => rw [← List.take_append_drop k mags, List.drop_eq_getElem_cons hk]
  rw [List.enum_eq_enumFrom, enumFrom_append_eq, List.enumFrom_cons]
  rw [List.length_take, Nat.min_eq_left hk.le, Nat.zero_add]
  rfl

theorem sub_search_forward (mags : List MagEntry) (target : ℚ)
    (hs : mags.Pairwise (fun a b => a.1 < b.1)) (lo : ℕ) (hlo : lo < mags.length)
    (hlo1 : (mags.get ⟨lo, hlo⟩).1 ≤ target)
    (hlo2 : ∀ (j : ℕ) (hj : j < mags.length), lo < j → target < (mags.get ⟨j, hj⟩).1) :
    sub_search (fun x => x ≤ target) mags.enum = some (lo, mags.get ⟨lo, hlo⟩) := by
  rw [enum_decomp mags lo hlo]
  apply sub_search_spec
  · intro p hp
    rcases List.mem_append.mp hp with hP | hx
    · have h2 : p.2 ∈ mags.take lo := by
        have := List.mem_map_of_mem Prod.snd hP
        rwa [List.enum_eq_enumFrom, List.enumFrom_map_snd] at this
      obtain ⟨j, hj, hjy⟩ := List.mem_iff_getElem.mp h2
      have hjlo : j < lo := by
        rw [List.length_take] at hj; omega
      have hjlen : j < mags.length := lt_trans hjlo hlo
      have hjv : mags.get ⟨j, hjlen⟩ = p.2 := by
        rw [← hjy]
        simp [List.get_eq_getElem]
      have hmag : (mags.get ⟨j, hjlen⟩).1 < (mags.get ⟨lo, hlo⟩).1 := by
        have := List.pairwise_iff_getElem.mp hs j lo hjlen hlo hjlo
        simpa [List.get_eq_getElem] using this
      have : p.2.1 ≤ target := by
        rw [← hjv]; exact le_trans (le_of_lt hmag) hlo1
      exact decide_eq_true this
    · have : p = (lo, mags.get ⟨lo, hlo⟩) := by simpa using hx
      subst this
      exact decide_eq_true hlo1
  · intro y hy
    cases hd : mags.drop (lo + 1) with
    | nil => rw [hd] at hy; simp at hy
    | cons z zs =>
      rw [hd, List.enumFrom_cons] at hy
      simp only [List.head?_cons, Option.some_inj] at hy
      subst hy
      have hlen : lo + 1 < mags.length := by
        by_contra hc
        have : mags.drop (lo + 1) = [] := List.drop_eq_nil_of_le (by omega)
        rw [this] at hd; cases hd
      have hz : z = mags.get ⟨lo + 1, hlen⟩ := by
        have h := List.drop_eq_getElem_cons (n := lo + 1) (l := mags) hlen
        rw [hd] at h
        have := (List.cons.injEq _ _ _ _).mp h
        simp [List.get_eq_getElem, this.1]
      have hlt : target < (mags.get ⟨lo + 1, hlen⟩).1 := hlo2 (lo + 1) hlen (Nat.lt_succ_self lo)
      have : ¬ ((lo + 1, z).2.1 ≤ target) := by
        simp only [hz]
        exact not_le.mpr hlt
      exact decide_eq_false this

theorem sub_search_backward (mags : List MagEntry) (target : ℚ)
    (hs : mags.Pairwise (fun a b => a.1 < b.1)) (hi : ℕ) (hhi : hi < mags.length)
    (hhi1 : target ≤ (mags.get ⟨hi, hhi⟩).1)
    (hhi2 : ∀ (j : ℕ) (hj : j < mags.length), j < hi → (mags.get ⟨j, hj⟩).1 < target) :
    sub_search (fun x => target ≤ x) mags.enum.reverse = some (hi, mags.get ⟨hi, hhi⟩) := by
  have hdec : mags.enum.reverse =
      (List.enumFrom (hi + 1) (mags.drop (hi + 1))).reverse ++
        (hi, mags.get ⟨hi, hhi⟩) :: (mags.take hi).enum.reverse := by
    rw [enum_decomp mags hi hhi, List.reverse_append, List.reverse_cons, List.append_assoc,
      List.singleton_append]
  rw [hdec]
  apply sub_search_spec
  · intro p hp
    rcases List.mem_append.mp hp with hP | hx
    · have hP2 : p ∈ List.enumFrom (hi + 1) (mags.drop (hi + 1)) := List.mem_reverse.mp hP
      have h2 : p.2 ∈ mags.drop (hi + 1) := by
        have := List.mem_map_of_mem Prod.snd hP2
        rwa [List.enumFrom_map_snd] at this
      obtain ⟨j, hj, hjy⟩ := List.mem_iff_getElem.mp h2
      have hjlen : hi + 1 + j < mags.length := by
        rw [List.length_drop] at hj; omega
      have hjv : mags.get ⟨hi + 1 + j, hjlen⟩ = p.2 := by
        rw [← hjy]
        simp [List.get_eq_getElem]
      have hmag : (mags.get ⟨hi, hhi⟩).1 < (mags.get ⟨hi + 1 + j, hjlen⟩).1 := by
        have := List.pairwise_iff_getElem.mp hs hi (hi + 1 + j) hhi hjlen (by omega)
        simpa [List.get_eq_getElem] using this
      have : target ≤ p.2.1 := by
        rw [← hjv]; exact le_trans hhi1 (le_of_lt hmag)
      exact decide_eq_true this
    · have : p = (hi, mags.get ⟨hi, hhi⟩) := by simpa using hx
      subst this
      exact decide_eq_true hhi1
  · intro y hy
    rw [List.head?_reverse] at hy
    rw [List.getLast?_eq_getElem?] at hy
    have hne : (mags.take hi).enum.length - 1 < (mags.take hi).enum.length := by
      by_contra hc
      have : (mags.take hi).enum = [] := by
        cases h : (mags.take hi).enum with
        | nil => rfl
        | cons a l => rw [h] at hc; simp at hc
      rw [List.getElem?_eq_none (by rw [this]; simp)] at hy
      cases hy
    have hlen0 : 0 < (mags.take hi).enum.length := by omega
    have htklen : (mags.take hi).enum.length = hi := by
      rw [List.enum_eq_enumFrom, List.enumFrom_length, List.length_take]
      exact Nat.min_eq_left hhi.le
    have hhi0 : 0 < hi := by omega
    have hidx : hi - 1 < mags.length := by omega
    have : (mags.take hi).enum[(mags.take hi).enum.length - 1]? =
        some (hi - 1, mags.get ⟨hi - 1, hidx⟩) := by
      rw [htklen, List.enum_eq_enumFrom, List.getElem?_enumFrom]
      have h1 : (mags.take hi)[hi - 1]? = some (mags.get ⟨hi - 1, hidx⟩) := by
        rw [List.getElem?_take_of_lt (by omega)]
        rw [List.getElem?_eq_getElem hidx]
        simp [List.get_eq_getElem]
      rw [h1]
      simp
    rw [this] at hy
    have hyv : (hi - 1, mags.get ⟨hi - 1, hidx⟩) = y := by
      simpa using hy
    subst hyv
    have hlt : (mags.get ⟨hi - 1, hidx⟩).1 < target := hhi2 (hi - 1) hidx (by omega)
    exact decide_eq_false (not_le.mpr hlt)

/-- C8: within the range of a strictly ascending (magnitude, time) table, the
lookup returns the time of the rightmost entry with magnitude ≤ target /
leftmost entry with magnitude ≥ target when those bounds coincide, and
otherwise the time linearly interpolated by the fractional position of the
target between the two bounding magnitudes. -/
theorem get_magnitude_time_interpolates (mags : List MagEntry) (target : ℚ)
    (hs : mags.Pairwise (fun a b => a.1 < b.1))
    (lo : ℕ) (hlo : lo < mags.length)
    (hlo1 : (mags.get ⟨lo, hlo⟩).1 ≤ target)
    (hlo2 : ∀ (j : ℕ) (hj : j < mags.length), lo < j → target < (mags.get ⟨j, hj⟩).1)
    (hi : ℕ) (hhi : hi < mags.length)
    (hhi1 : target ≤ (mags.get ⟨hi, hhi⟩).1)
    (hhi2 : ∀ (j : ℕ) (hj : j < mags.length), j < hi → (mags.get ⟨j, hj⟩).1 < target) :
    get_magnitude_time mags target =
      if lo = hi then .ok (mags.get ⟨lo, hlo⟩).2
      else .ok ((mags.get ⟨lo, hlo⟩).2 +
        ((mags.get ⟨hi, hhi⟩).2 - (mags.get ⟨lo, hlo⟩).2) *
          ((target - (mags.get ⟨lo, hlo⟩).1) /
           ((mags.get ⟨hi, hhi⟩).1 - (mags.get ⟨lo, hlo⟩).1))) := by
  have hfb : find_bounds mags target =
      (some (lo, mags.get ⟨lo, hlo⟩), some (hi, mags.get ⟨hi, hhi⟩)) := by
    rw [find_bounds]
    rw [sub_search_forward mags target hs lo hlo hlo1 hlo2,
      sub_search_backward mags target hs hi hhi hhi1 hhi2]
  rw [get_magnitude_time, hfb]
  by_cases heq : lo = hi
  · subst heq
    simp
  · rw [if_neg heq]
    have hlohi : lo < hi := by
      rcases Nat.lt_trichotomy lo hi with h | h | h
      · exact h
      · exact absurd h heq
      · exfalso
        have h1 : (mags.get ⟨hi, hhi⟩).1 < (mags.get ⟨lo, hlo⟩).1 := by
          have := List.pairwise_iff_getElem.mp hs hi lo hhi hlo h
          simpa [List.get_eq_getElem] using this
        have := le_trans hlo1 hhi1
        linarith
    have hmaglt : (mags.get ⟨lo, hlo⟩).1 < (mags.get ⟨hi, hhi⟩).1 := by
      have := List.pairwise_iff_getElem.mp hs lo hi hlo hhi hlohi
      simpa [List.get_eq_getElem] using this
    have hne : (mags.get ⟨hi, hhi⟩).1 - (mags.get ⟨lo, hlo⟩).1 ≠ 0 := by
      intro h; linarith
    simp only [if_neg heq, if_neg hne]

/-- Witness for C8: both branches on the two-knot table [(0, 100), (1, 300)]:
the knot target 0 returns the knot time 100 exactly, and the midpoint target
one half returns the exact midpoint time 200. -/
theorem get_magnitude_time_interpolates_witness :
    get_magnitude_time [(0, 100), (1, 300)] 0 = .ok 100 ∧
    get_magnitude_time [(0, 100), (1, 300)] (1 / 2) = .ok 200 := by
  constructor
  · have h := get_magnitude_time_interpolates [(0, 100), (1, 300)] 0
      (by norm_num)
      0 (by norm_num) (by norm_num)
      (by intro j hj hlt
          match j, hj with
          | 1, _ => norm_num [List.get]
          | 0, _ => omega)
      0 (by norm_num) (by norm_num)
      (by intro j hj hlt; omega)
    simpa using h
  · have h := get_magnitude_time_interpolates [(0, 100), (1, 300)] (1 / 2)
      (by norm_num)
      0 (by norm_num) (by norm_num)
      (by intro j hj hlt
          match j, hj with
          | 1, _ => norm_num [List.get]
          | 0, _ => omega)
      1 (by norm_num) (by norm_num [List.get])
      (by intro j hj hlt
          match j, hj with
          | 0, _ => norm_num [List.get]
          | 1, _ => omega)
    rw [h]
    norm_num [List.get]

theorem child_step_value (L : ForVarLoop) (events : EventManager) (c : Leaf) (value : ℚ)
    (acts : List Action) (v2 : ℚ) (h : L.child_step events c value = .ok (acts, v2)) :
    v2 = value + L.step := by
  unfold ForVarLoop.child_step at h
  rcases hs : split_on_char ' ' c.event with _ | ⟨ev, rest⟩ <;> rw [hs] at h
  · simp at h
  · rcases rest with _ | ⟨p, rest2⟩
    · simp at h
    · rcases rest2 with _ | ⟨q, rest3⟩
      · rcases hg : c.generate_actions events (some (ev ++ ' ' :: format_fixed1 value)) with
          e | more
        · simp only [hg] at h
          simp at h
        · simp only [hg, Except.ok.injEq, Prod.mk.injEq] at h
          exact h.2.symm
      · simp at h

theorem pass_children_value (L : ForVarLoop) (events : EventManager) :
    ∀ (cs : List Leaf) (value : ℚ) (acts : List Action) (v2 : ℚ),
      L.pass_children events cs value = .ok (acts, v2) →
      v2 = value + cs.length * L.step := by
  intro cs
  induction cs with
  | nil =>
    intro v a v2 h
    simp only [ForVarLoop.pass_children, Except.ok.injEq, Prod.mk.injEq] at h
    rw [← h.2]; simp
  | cons c cs ih =>
    intro v a v2 h
    rw [ForVarLoop.pass_children] at h
    rcases hc : L.child_step events c v with e | ⟨acts1, vmid⟩
    · simp only [hc] at h
      simp at h
    · simp only [hc] at h
      rcases hp : L.pass_children events cs vmid with e | ⟨rest, v3⟩
      · simp only [hp] at h
        simp at h
      · simp only [hp, Except.ok.injEq, Prod.mk.injEq] at h
        have h1 := child_step_value L events c v acts1 vmid hc
        have h2 := ih vmid rest v3 hp
        rw [← h.2, h2, h1]
        simp only [List.length_cons]
        push_cast
        ring

theorem format_fixed1_zero : format_fixed1 0 = "00.0".toList := by
  have h : round ((0 : ℚ) * 10) = 0 := by norm_num [round_eq]
  simp [format_fixed1, h, nat_repr, nat_repr_aux, digit_char, pad_num]

theorem format_fixed1_one : format_fixed1 1 = "01.0".toList := by
  have h : round ((1 : ℚ) * 10) = 10 := by norm_num [round_eq]
  simp [format_fixed1, h, nat_repr, nat_repr_aux, digit_char, pad_num]

theorem format_fixed1_two : format_fixed1 2 = "02.0".toList := by
  have h : round ((2 : ℚ) * 10) = 20 := by norm_num [round_eq]
  simp [format_fixed1, h, nat_repr, nat_repr_aux, digit_char, pad_num]

theorem child_step_mag_a_zero (L : ForVarLoop) :
    L.child_step em0 mag_leaf_a 0 =
      .ok ([.takePic 0 1 8 100 "a (Mag. 00.0%)".toList], 0 + L.step) := by
  simp [ForVarLoop.child_step, mag_leaf_a, Leaf.event, Leaf.generate_actions,
    format_fixed1_zero, split_on_char, EventManager.get_time, em0,
    EventManager.init, lookup_event, EventManager.get_magnitude_time,
    Sem.get_magnitude_time, find_bounds, sub_search, parse_float, parse_nat,
    digits_val, Action.add_comment]
  norm_num [sub_search, Action.add_comment]

theorem child_step_mag_a_one (L : ForVarLoop) :
    L.child_step em0 mag_leaf_a 1 =
      .ok ([.takePic 6 1 8 100 "a (Mag. 01.0%)".toList], 1 + L.step) := by
  simp [ForVarLoop.child_step, mag_leaf_a, Leaf.event, Leaf.generate_actions,
    format_fixed1_one, split_on_char, EventManager.get_time, em0,
    EventManager.init, lookup_event, EventManager.get_magnitude_time,
    Sem.get_magnitude_time, find_bounds, sub_search, parse_float, parse_nat,
    digits_val, Action.add_comment]
  norm_num [sub_search, Action.add_comment]

theorem child_step_mag_a_two (L : ForVarLoop) :
    L.child_step em0 mag_leaf_a 2 =
      .ok ([.takePic 12 1 8 100 "a (Mag. 02.0%)".toList], 2 + L.step) := by
  simp [ForVarLoop.child_step, mag_leaf_a, Leaf.event, Leaf.generate_actions,
    format_fixed1_two, split_on_char, EventManager.get_time, em0,
    EventManager.init, lookup_event, EventManager.get_magnitude_time,
    Sem.get_magnitude_time, find_bounds, sub_search, parse_float, parse_nat,
    digits_val, Action.add_comment]
  norm_num [sub_search, Action.add_comment]

theorem child_step_mag_b_one (L : ForVarLoop) :
    L.child_step em0 mag_leaf_b 1 =
      .ok ([.takePic 6 1 8 100 "b (Mag. 01.0%)".toList], 1 + L.step) := by
  simp [ForVarLoop.child_step, mag_leaf_b, Leaf.event, Leaf.generate_actions,
    format_fixed1_one, split_on_char, EventManager.get_time, em0,
    EventManager.init, lookup_event, EventManager.get_magnitude_time,
    Sem.get_magnitude_time, find_bounds, sub_search, parse_float, parse_nat,
    digits_val, Action.add_comment]
  norm_num [sub_search, Action.add_comment]

/-- C2 amended: the loop variable advances once per child, not once per full
pass — a pass over `n` children advances `value` by `n * step`, the i-th
child of a pass seeing the i-th intermediate value.  With exactly one child
the enumeration claimed for `LoopByVariable` holds: start 0, step 1, end 3
over the single child `mag_leaf_a` yields exactly 3 actions, for substituted
values 00.0, 01.0 and 02.0, with 3.0 excluded. -/
theorem for_var_value_advances_per_child :
    (∀ (L : ForVarLoop) (events : EventManager) (cs : List Leaf) (value : ℚ)
        (acts : List Action) (v2 : ℚ),
      L.pass_children events cs value = .ok (acts, v2) →
      v2 = value + cs.length * L.step) ∧
    ForVarLoop.generate_actions ⟨0, 1, 3, [mag_leaf_a]⟩ em0 4 =
      some (.ok
        [.takePic 0 1 8 100 "a (Mag. 00.0%)".toList,
         .takePic 6 1 8 100 "a (Mag. 01.0%)".toList,
         .takePic 12 1 8 100 "a (Mag. 02.0%)".toList]) := by
  constructor
  · exact fun L events => pass_children_value L events
  · norm_num [ForVarLoop.generate_actions, ForVarLoop.run, ForVarLoop.pass_children,
      child_step_mag_a_zero, child_step_mag_a_one, child_step_mag_a_two]

/-- C2 counterexample: with two children and start 0, step 1, end 2 the code
generates 2 actions — the second child of the first (and only) pass already
sees value 1.0, and the `while` condition then stops the loop — whereas the
claim as stated (one full pass over all children per value, the value
advancing once per pass) requires 4 actions, each child once at 0.0 and once
at 1.0. -/
theorem for_var_two_children_counterexample :
    ForVarLoop.generate_actions ⟨0, 1, 2, [mag_leaf_a, mag_leaf_b]⟩ em0 2 =
      some (.ok
        [.takePic 0 1 8 100 "a (Mag. 00.0%)".toList,
         .takePic 6 1 8 100 "b (Mag. 01.0%)".toList]) := by
  norm_num [ForVarLoop.generate_actions, ForVarLoop.run, ForVarLoop.pass_children,
    child_step_mag_a_zero, child_step_mag_b_one]

theorem run_terminates_of_bound (L : ForVarLoop) (events : EventManager)
    (hstep : 0 < L.step) :
    ∀ (k : ℕ) (v : ℚ), L.stop - v ≤ k * (L.commands.length * L.step) →
      (L.run events (k + 1) v).isSome := by
  intro k
  induction k with
  | zero =>
    intro v hv
    rw [ForVarLoop.run]
    have : ¬ v < L.stop := by
      simp only [Nat.cast_zero, zero_mul] at hv
      intro hlt; linarith
    rw [if_neg this]
    simp
  | succ k ih =>
    intro v hv
    rw [ForVarLoop.run]
    by_cases hlt : v < L.stop
    · rw [if_pos hlt]
      rcases hp : L.pass_children events L.commands v with e | ⟨acts, v2⟩
      · simp [hp]
      · have hv2 : v2 = v + L.commands.length * L.step :=
          pass_children_value L events L.commands v acts v2 hp
        have hb : L.stop - v2 ≤ k * (L.commands.length * L.step) := by
          rw [hv2]
          push_cast at hv ⊢
          linarith
        have hs := ih v2 hb
        rcases hr : L.run events (k + 1) v2 with _ | r
        · rw [hr] at hs; simp at hs
        · cases r <;> simp [hp, hr]
    · rw [if_neg hlt]
      simp

/-- C10: `ForVarLoop` action generation terminates whenever `step > 0` and
the children list is non-empty: each full pass either raises (ending the
loop with an error) or advances the loop variable by
`commands.length * step > 0`, so a finite fuel bounds the number of passes
of the `while value < end` loop. -/
theorem for_var_terminates (L : ForVarLoop) (events : EventManager)
    (hstep : 0 < L.step) (hne : L.commands ≠ []) :
    ∃ fuel, (L.generate_actions events fuel).isSome := by
  refine ⟨⌈(L.stop - L.start) / (L.commands.length * L.step)⌉₊ + 1, ?_⟩
  rw [ForVarLoop.generate_actions]
  apply run_terminates_of_bound L events hstep
  have hn : 0 < (L.commands.length : ℚ) := by
    have := List.length_pos.mpr hne
    exact_mod_cast this
  have hpos : 0 < (L.commands.length : ℚ) * L.step := mul_pos hn hstep
  have h1 : (L.stop - L.start) / ((L.commands.length : ℚ) * L.step) ≤
      (⌈(L.stop - L.start) / (L.commands.length * L.step)⌉₊ : ℚ) := Nat.le_ceil _
  calc L.stop - L.start
      = ((L.stop - L.start) / ((L.commands.length : ℚ) * L.step)) *
          ((L.commands.length : ℚ) * L.step) := by field_simp
    _ ≤ (⌈(L.stop - L.start) / (L.commands.length * L.step)⌉₊ : ℚ) *
          ((L.commands.length : ℚ) * L.step) :=
        mul_le_mul_of_nonneg_right h1 (le_of_lt hpos)

/-- Witness for C10: the concrete loop of the C2 instance (step 1 > 0, one
child) terminates. -/
theorem for_var_terminates_witness :
    (0 : ℚ) < 1 ∧ ([mag_leaf_a] : List Leaf) ≠ [] ∧
    ∃ fuel, ((⟨0, 1, 3, [mag_leaf_a]⟩ : ForVarLoop).generate_actions em0 fuel).isSome :=
  ⟨by norm_num, by simp,
    for_var_terminates ⟨0, 1, 3, [mag_leaf_a]⟩ em0 (by norm_num) (by simp)⟩

/-- Witness for C2: the advance of the loop variable across the concrete
two-child pass of the counterexample is exactly `2 * step`. -/
theorem for_var_value_advances_witness :
    (⟨0, 1, 2, [mag_leaf_a, mag_leaf_b]⟩ : ForVarLoop).pass_children em0
        [mag_leaf_a, mag_leaf_b] 0 =
      .ok ([.takePic 0 1 8 100 "a (Mag. 00.0%)".toList,
            .takePic 6 1 8 100 "b (Mag. 01.0%)".toList], 2) ∧
    (2 : ℚ) = 0 + ([mag_leaf_a, mag_leaf_b] : List Leaf).length *
      (⟨0, 1, 2, [mag_leaf_a, mag_leaf_b]⟩ : ForVarLoop).step := by
  have hp : (⟨0, 1, 2, [mag_leaf_a, mag_leaf_b]⟩ : ForVarLoop).pass_children em0
      [mag_leaf_a, mag_leaf_b] 0 =
      .ok ([.takePic 0 1 8 100 "a (Mag. 00.0%)".toList,
            .takePic 6 1 8 100 "b (Mag. 01.0%)".toList], 2) := by
    norm_num [ForVarLoop.pass_children, child_step_mag_a_zero, child_step_mag_b_one]
  exact ⟨hp, by
    have := (for_var_value_advances_per_child.1
      ⟨0, 1, 2, [mag_leaf_a, mag_leaf_b]⟩ em0 [mag_leaf_a, mag_leaf_b] 0 _ 2 hp)
    simpa using this⟩

/-- Witness for C7: forward direction, delay 5 s, 3 iterations over the one
child `c2_leaf` with base time 1000 s produces actions at 1000, 1005 and
1010 seconds, tagged with iteration numbers 001, 002 and 003. -/
theorem for_iter_loop_offsets_witness :
    (⟨1, 5, 3, [c2_leaf]⟩ : ForIterLoop).generate_actions em0 = .ok
      [.play 1000 "horn.mp3".toList "p (iter. 001)".toList,
       .play 1005 "horn.mp3".toList "p (iter. 002)".toList,
       .play 1010 "horn.mp3".toList "p (iter. 003)".toList] := by
  have hgen : ∀ c ∈ ([c2_leaf] : List Leaf),
      c.generate_actions em0 none =
        .ok [.play 1000 "horn.mp3".toList "p".toList] := by
    intro c hc
    simp only [List.mem_singleton] at hc
    subst hc
    simp [c2_leaf, Leaf.generate_actions, EventManager.get_time, em0,
      EventManager.init, lookup_event, Leaf.event]
    norm_num
  have h := for_iter_loop_offsets ⟨1, 5, 3, [c2_leaf]⟩ em0 _ hgen
  rw [h]
  simp [iter_tagged, trunc_q, Action.shift_time, Action.add_comment,
    pad_num, nat_repr, nat_repr_aux, digit_char, List.range_succ]
  norm_num [trunc_q]

end Sem

namespace SemCsv

theorem lex_le_refl : ∀ a : List ℕ, lex_le a a = true := by
  intro a
  induction a with
  | nil => rfl
  | cons x xs ih => simp [lex_le, ih]

theorem lex_le_total : ∀ a b : List ℕ, lex_le a b || lex_le b a := by
  intro a
  induction a with
  | nil => intro b; simp [lex_le]
  | cons x xs ih =>
    intro b
    cases b with
    | nil => simp [lex_le]
    | cons y ys =>
      simp only [lex_le]
      rcases Nat.lt_trichotomy x y with h | h | h
      · simp [h, Nat.not_lt.mpr (le_of_lt h)]
      · subst h
        simpa [Nat.lt_irrefl] using ih ys
      · simp [h, Nat.not_lt.mpr (le_of_lt h)]

theorem lex_le_trans : ∀ a b c : List ℕ,
    lex_le a b = true → lex_le b c = true → lex_le a c = true := by
  intro a
  induction a with
  | nil => intro b c _ _; rfl
  | cons x xs ih =>
    intro b c h1 h2
    cases b with
    | nil => simp [lex_le] at h1
    | cons y ys =>
      cases c with
      | nil => simp [lex_le] at h2
      | cons z zs =>
        simp only [lex_le] at h1 h2 ⊢
        split_ifs at h1 h2 ⊢ <;>
          first
            | rfl
            | omega
            | exact ih ys zs h1 h2
            | simp_all

theorem dt_le_refl (t : DateTime) : dt_le t t = true := lex_le_refl _

theorem dt_le_total (a b : DateTime) : dt_le a b || dt_le b a := lex_le_total _ _

theorem dt_le_trans (a b c : DateTime) :
    dt_le a b = true → dt_le b c = true → dt_le a c = true :=
  lex_le_trans _ _ _

theorem mergeSort_filter_stable {α : Type} (le : α → α → Bool)
    (htrans : ∀ a b c : α, le a b → le b c → le a c)
    (htotal : ∀ a b : α, le a b || le b a)
    (l : List α) (p : α → Bool)
    (hp : ∀ a b : α, p a = true → p b = true → le a b = true) :
    (l.mergeSort le).filter p = l.filter p := by
  have hc1 : (l.filter p).Pairwise (fun a b => le a b) := by
    apply List.pairwise_of_forall_mem_list
    intro a ha b hb
    exact hp a b (List.of_mem_filter ha) (List.of_mem_filter hb)
  have hsub : List.Sublist (l.filter p) (l.mergeSort le) :=
    List.sublist_mergeSort htrans htotal hc1 (List.filter_sublist l)
  have hself : (l.filter p).filter p = l.filter p :=
    List.filter_eq_self.mpr (fun a ha => List.of_mem_filter ha)
  have hsub2 : List.Sublist (l.filter p) ((l.mergeSort le).filter p) := by
    have h := hsub.filter p
    rwa [hself] at h
  have hlen : ((l.mergeSort le).filter p).length = (l.filter p).length :=
    ((List.mergeSort_perm l le).filter p).length_eq
  exact (hsub2.eq_of_length hlen.symm).symm

/-- C3 amended: constructing a Sequence stably sorts the given Actions into
non-decreasing time order — the result is time-sorted, is a permutation of
the input, and preserves the original relative order of Actions with equal
timestamps.  Deserialization (`read_csv`), however, does not sort: it
appends well-formed rows' actions in file order (see the counterexample),
so a read Sequence is time-sorted only when its rows are. -/
theorem sequence_init_sorted_stable (actions : List SAction) :
    (sequence_init actions).Pairwise (fun a b => dt_le a.time b.time) ∧
    (sequence_init actions).Perm actions ∧
    ∀ t : DateTime,
      (sequence_init actions).filter (fun a => a.time = t) =
        actions.filter (fun a => a.time = t) := by
  refine ⟨?_, List.mergeSort_perm actions _, ?_⟩
  · exact List.sorted_mergeSort
      (fun a b c => dt_le_trans a.time b.time c.time)
      (fun a b => dt_le_total a.time b.time) actions
  · intro t
    apply mergeSort_filter_stable
      (fun a b : SAction => dt_le a.time b.time)
      (fun a b c => dt_le_trans a.time b.time c.time)
      (fun a b => dt_le_total a.time b.time)
    intro a b ha hb
    have ha2 : a.time = t := by simpa using ha
    have hb2 : b.time = t := by simpa using hb
    rw [ha2, hb2]
    exact dt_le_refl t

/-- C3 counterexample: reading two well-formed rows whose timestamps are out
of order yields `.actions` in file order — the later timestamp first — so
deserialization does not leave the Sequence time-sorted. -/
theorem read_csv_not_sorted_counterexample :
    read_csv [row_late, row_early] =
      .ok [.takePic ⟨2024, 4, 8, 12, 0, 1, 0⟩ (.str "1".toList) (.str "8".toList)
             (.str "100".toList) (.str "x".toList),
           .takePic ⟨2024, 4, 8, 12, 0, 0, 0⟩ (.str "1".toList) (.str "8".toList)
             (.str "100".toList) (.str "y".toList)] ∧
    dt_le (⟨2024, 4, 8, 12, 0, 1, 0⟩ : DateTime) ⟨2024, 4, 8, 12, 0, 0, 0⟩ = false := by
  decide

end SemCsv

namespace SemCsv

theorem digit_char_isDigit (n : ℕ) (h : n < 10) : (Sem.digit_char n).isDigit = true := by
  interval_cases n <;> decide

theorem digit_char_toNat (n : ℕ) (h : n < 10) : (Sem.digit_char n).toNat = 48 + n := by
  interval_cases n <;> decide

theorem nat_repr_aux_irrel : ∀ n f1 f2 : ℕ, n < f1 → n < f2 →
    Sem.nat_repr_aux f1 n = Sem.nat_repr_aux f2 n := by
  intro n
  induction n using Nat.strong_induction_on with
  | _ n ih =>
    intro f1 f2 h1 h2
    cases f1 with
    | zero => omega
    | succ f1 =>
      cases f2 with
      | zero => omega
      | succ f2 =>
        by_cases h : n < 10
        · simp [Sem.nat_repr_aux, h]
        · have hd : n / 10 < n := Nat.div_lt_self (by omega) (by omega)
          simp only [Sem.nat_repr_aux, if_neg h]
          rw [ih (n / 10) hd f1 f2 (by omega) (by omega)]

theorem nat_repr_unfold (n : ℕ) :
    Sem.nat_repr n = if n < 10 then [Sem.digit_char n]
      else Sem.nat_repr (n / 10) ++ [Sem.digit_char (n % 10)] := by
  have hstep : Sem.nat_repr n =
      if n < 10 then [Sem.digit_char n]
      else Sem.nat_repr_aux n (n / 10) ++ [Sem.digit_char (n % 10)] := rfl
  by_cases h : n < 10
  · rw [hstep, if_pos h, if_pos h]
  · rw [hstep, if_neg h, if_neg h]
    have hd : n / 10 < n := Nat.div_lt_self (by omega) (by omega)
    rw [nat_repr_aux_irrel (n / 10) n (n / 10 + 1) hd (Nat.lt_succ_self _)]
    rfl

theorem nat_repr_ne_nil (n : ℕ) : Sem.nat_repr n ≠ [] := by
  rw [nat_repr_unfold]
  split <;> simp

theorem nat_repr_all_digit : ∀ n : ℕ, ∀ c ∈ Sem.nat_repr n, c.isDigit = true := by
  intro n
  induction n using Nat.strong_induction_on with
  | _ n ih =>
    intro c hc
    rw [nat_repr_unfold] at hc
    by_cases h : n < 10
    · rw [if_pos h] at hc
      simp only [List.mem_singleton] at hc
      subst hc
      exact digit_char_isDigit n h
    · rw [if_neg h] at hc
      rcases List.mem_append.mp hc with h1 | h2
      · exact ih (n / 10) (Nat.div_lt_self (by omega) (by omega)) c h1
      · simp only [List.mem_singleton] at h2
        subst h2
        exact digit_char_isDigit _ (Nat.mod_lt n (by omega))

theorem nat_repr_length_le : ∀ (n k : ℕ), 0 < k → n < 10 ^ k →
    (Sem.nat_repr n).length ≤ k := by
  intro n
  induction n using Nat.strong_induction_on with
  | _ n ih =>
    intro k hk hn
    rw [nat_repr_unfold]
    by_cases h : n < 10
    · rw [if_pos h]
      simpa using hk
    · rw [if_neg h]
      have hk2 : 2 ≤ k := by
        by_contra hc
        have hk1 : k = 1 := by omega
        subst hk1
        simp only [pow_one] at hn
        omega
      have hdiv : n / 10 < 10 ^ (k - 1) := by
        rw [Nat.div_lt_iff_lt_mul (by omega)]
        calc n < 10 ^ k := hn
          _ = 10 ^ (k - 1) * 10 := by
            rw [← Nat.pow_succ]
            congr 1
            omega
      have hrec := ih (n / 10) (Nat.div_lt_self (by omega) (by omega)) (k - 1) (by omega) hdiv
      rw [List.length_append, List.length_cons, List.length_nil]
      omega

theorem nat_repr_length_lower : ∀ (n k : ℕ), 10 ^ k ≤ n →
    k + 1 ≤ (Sem.nat_repr n).length := by
  intro n
  induction n using Nat.strong_induction_on with
  | _ n ih =>
    intro k hkn
    rw [nat_repr_unfold]
    by_cases h : n < 10
    · rw [if_pos h]
      have hk0 : k = 0 := by
        by_contra hc
        have h1 : (10 : ℕ) ≤ 10 ^ k := by
          calc (10 : ℕ) = 10 ^ 1 := by norm_num
            _ ≤ 10 ^ k := Nat.pow_le_pow_right (by omega) (by omega)
        omega
      subst hk0
      simp
    · rw [if_neg h]
      cases k with
      | zero =>
        rw [List.length_append, List.length_cons, List.length_nil]
        omega
      | succ k =>
        have hdiv : 10 ^ k ≤ n / 10 := by
          rw [Nat.le_div_iff_mul_le (by omega)]
          calc 10 ^ k * 10 = 10 ^ (k + 1) := by rw [← Nat.pow_succ]
            _ ≤ n := hkn
        have hrec := ih (n / 10) (Nat.div_lt_self (by omega) (by omega)) k hdiv
        rw [List.length_append, List.length_cons, List.length_nil]
        omega

theorem nat_repr_head : ∀ (k n : ℕ), 10 ^ k ≤ n → n < 10 ^ (k + 1) →
    ∃ rest, Sem.nat_repr n = Sem.digit_char (n / 10 ^ k) :: rest := by
  intro k
  induction k with
  | zero =>
    intro n h1 h2
    simp only [pow_zero] at h1
    simp only [zero_add, pow_one] at h2
    refine ⟨[], ?_⟩
    rw [nat_repr_unfold, if_pos h2]
    simp
  | succ k ih =>
    intro n h1 h2
    have h10 : ¬ n < 10 := by
      have hge : (10 : ℕ) ≤ 10 ^ (k + 1) := by
        calc (10 : ℕ) = 10 ^ 1 := by norm_num
          _ ≤ 10 ^ (k + 1) := Nat.pow_le_pow_right (by omega) (by omega)
      omega
    have hd1 : 10 ^ k ≤ n / 10 := by
      rw [Nat.le_div_iff_mul_le (by omega)]
      calc 10 ^ k * 10 = 10 ^ (k + 1) := by rw [← Nat.pow_succ]
        _ ≤ n := h1
    have hd2 : n / 10 < 10 ^ (k + 1) := by
      rw [Nat.div_lt_iff_lt_mul (by omega)]
      calc n < 10 ^ (k + 1 + 1) := h2
        _ = 10 ^ (k + 1) * 10 := by rw [← Nat.pow_succ]
    obtain ⟨rest, hrest⟩ := ih (n / 10) hd1 hd2
    refine ⟨rest ++ [Sem.digit_char (n % 10)], ?_⟩
    rw [nat_repr_unfold, if_neg h10, hrest]
    have hdd : n / 10 / 10 ^ k = n / 10 ^ (k + 1) := by
      rw [Nat.div_div_eq_div_mul]
      congr 1
      rw [Nat.pow_succ]
      ring
    rw [hdd]
    simp

theorem pad_num_ne_nil (w n : ℕ) : Sem.pad_num w n ≠ [] := by
  rw [Sem.pad_num]
  intro h
  rcases List.append_eq_nil.mp h with ⟨-, h2⟩
  exact nat_repr_ne_nil n h2

theorem pad_num_all_digit (w n : ℕ) : ∀ c ∈ Sem.pad_num w n, c.isDigit = true := by
  intro c hc
  rw [Sem.pad_num] at hc
  rcases List.mem_append.mp hc with h1 | h2
  · have := List.eq_of_mem_replicate h1
    subst this
    decide
  · exact nat_repr_all_digit n c h2

theorem pad_num_no_char (w n : ℕ) (sep : Char) (hsep : sep.isDigit = false) :
    ∀ c ∈ Sem.pad_num w n, c ≠ sep := by
  intro c hc he
  subst he
  rw [pad_num_all_digit w n c hc] at hsep
  cases hsep

theorem pad_num_length (w n : ℕ) (hw : 0 < w) (h : n < 10 ^ w) :
    (Sem.pad_num w n).length = w := by
  rw [Sem.pad_num, List.length_append, List.length_replicate]
  have := nat_repr_length_le n w hw h
  omega

theorem foldl_zeros (k : ℕ) :
    List.foldl (fun acc c => acc * 10 + (c.toNat - 48)) 0 (List.replicate k '0') = 0 := by
  induction k with
  | zero => rfl
  | succ k ih =>
    rw [List.replicate_succ, List.foldl_cons]
    have h0 : (0 * 10 + ('0'.toNat - 48)) = 0 := by decide
    rw [h0, ih]

theorem digits_val_nat_repr_aux : ∀ n acc : ℕ,
    List.foldl (fun acc c => acc * 10 + (c.toNat - 48)) acc (Sem.nat_repr n) =
      acc * 10 ^ (Sem.nat_repr n).length + n := by
  intro n
  induction n using Nat.strong_induction_on with
  | _ n ih =>
    intro acc
    rw [nat_repr_unfold]
    by_cases h : n < 10
    · rw [if_pos h]
      simp only [List.foldl_cons, List.foldl_nil, List.length_cons, List.length_nil,
        Nat.zero_add, pow_one]
      rw [digit_char_toNat n h]
      omega
    · rw [if_neg h]
      rw [List.foldl_append, List.length_append,
        ih (n / 10) (Nat.div_lt_self (by omega) (by omega)) acc]
      simp only [List.foldl_cons, List.foldl_nil, List.length_cons, List.length_nil,
        Nat.zero_add]
      rw [digit_char_toNat (n % 10) (Nat.mod_lt n (by omega)), Nat.add_sub_cancel_left]
      have hmod : n / 10 * 10 + n % 10 = n := by
        have := Nat.div_add_mod n 10
        omega
      calc (acc * 10 ^ (Sem.nat_repr (n / 10)).length + n / 10) * 10 + n % 10
          = acc * (10 ^ (Sem.nat_repr (n / 10)).length * 10) + (n / 10 * 10 + n % 10) := by
            ring
        _ = acc * 10 ^ ((Sem.nat_repr (n / 10)).length + 1) + n := by
            rw [hmod, Nat.pow_succ]

theorem digits_val_pad (w n : ℕ) : Sem.digits_val (Sem.pad_num w n) = n := by
  rw [Sem.digits_val, Sem.pad_num, List.foldl_append, foldl_zeros,
    digits_val_nat_repr_aux n 0]
  simp

theorem parse_nat_pad (w n : ℕ) : Sem.parse_nat (Sem.pad_num w n) = some n := by
  rw [Sem.parse_nat, if_pos, digits_val_pad]
  exact ⟨pad_num_ne_nil w n, List.all_eq_true.mpr (fun c hc => pad_num_all_digit w n c hc)⟩

theorem split_on_char_sepfree (sep : Char) :
    ∀ s : Str, (∀ c ∈ s, c ≠ sep) → split_on_char sep s = [s] := by
  intro s
  induction s with
  | nil => intro _; rfl
  | cons c rest ih =>
    intro h
    have hc : c ≠ sep := h c (List.mem_cons_self c rest)
    have hr := ih (fun d hd => h d (List.mem_cons_of_mem c hd))
    simp [split_on_char, hc, hr]

theorem split_on_char_append (sep : Char) :
    ∀ xs ys : Str, (∀ c ∈ xs, c ≠ sep) →
      split_on_char sep (xs ++ sep :: ys) = xs :: split_on_char sep ys := by
  intro xs
  induction xs with
  | nil =>
    intro ys _
    simp [split_on_char]
  | cons x xs ih =>
    intro ys h
    have hx : x ≠ sep := h x (List.mem_cons_self x xs)
    have hr := ih ys (fun d hd => h d (List.mem_cons_of_mem x hd))
    simp [split_on_char, hx, hr]

end SemCsv

namespace SemCsv

theorem isDigit_ne_char (c : Char) (hc : c.isDigit = true) (sep : Char)
    (hsep : sep.isDigit = false) : c ≠ sep := by
  intro he
  subst he
  rw [hc] at hsep
  cases hsep

theorem days_in_month_le (y m : ℕ) : days_in_month y m ≤ 31 := by
  rw [days_in_month]
  split_ifs <;> omega

theorem parse_nat_digit (m : ℕ) (h : m < 10) :
    Sem.parse_nat [Sem.digit_char m] = some m := by
  rw [Sem.parse_nat, if_pos]
  · rw [Sem.digits_val]
    simp only [List.foldl_cons, List.foldl_nil]
    rw [digit_char_toNat m h]
    congr 1
    omega
  · refine ⟨by simp, List.all_eq_true.mpr ?_⟩
    intro c hc
    simp only [List.mem_singleton] at hc
    subst hc
    exact digit_char_isDigit m h

theorem pad_num_take_one (w n : ℕ) (h : n < 10 ^ (w + 1)) :
    (Sem.pad_num (w + 1) n).take 1 = [Sem.digit_char (n / 10 ^ w)] := by
  by_cases hlt : n < 10 ^ w
  · have hdiv : n / 10 ^ w = 0 := Nat.div_eq_of_lt hlt
    rw [hdiv]
    cases w with
    | zero =>
      have hn0 : n = 0 := by
        simp only [pow_zero] at hlt
        omega
      subst hn0
      decide
    | succ w2 =>
      have hL : (Sem.nat_repr n).length ≤ w2 + 1 :=
        nat_repr_length_le n (w2 + 1) (by omega) hlt
      rw [Sem.pad_num]
      have hrep : w2 + 1 + 1 - (Sem.nat_repr n).length =
          (w2 + 1 - (Sem.nat_repr n).length) + 1 := by omega
      rw [hrep, List.replicate_succ]
      rfl
  · have hge : 10 ^ w ≤ n := Nat.not_lt.mp hlt
    obtain ⟨rest, hrest⟩ := nat_repr_head w n hge h
    have hL : (Sem.nat_repr n).length = w + 1 :=
      le_antisymm (nat_repr_length_le n (w + 1) (by omega) h)
        (nat_repr_length_lower n w hge)
    rw [Sem.pad_num, hL]
    simp only [Nat.sub_self, List.replicate_zero, List.nil_append]
    rw [hrest]
    rfl

theorem format_time_eq (t : DateTime) (hh : t.hour ≤ 23) (hm : t.minute ≤ 59)
    (hs : t.second ≤ 59) (hmicro : t.micro ≤ 999999) :
    format_time t = Sem.pad_num 2 t.hour ++ ':' ::
      (Sem.pad_num 2 t.minute ++ ':' ::
        (Sem.pad_num 2 t.second ++ '.' :: [Sem.digit_char (t.micro / 100000)])) := by
  have h100 : (10 : ℕ) ^ 2 = 100 := by norm_num
  have hmil : (10 : ℕ) ^ 6 = 1000000 := by norm_num
  have l1 : (Sem.pad_num 2 t.hour).length = 2 :=
    pad_num_length 2 t.hour (by omega) (by omega)
  have l2 : (Sem.pad_num 2 t.minute).length = 2 :=
    pad_num_length 2 t.minute (by omega) (by omega)
  have l3 : (Sem.pad_num 2 t.second).length = 2 :=
    pad_num_length 2 t.second (by omega) (by omega)
  have l6 : (Sem.pad_num 6 t.micro).length = 6 :=
    pad_num_length 6 t.micro (by omega) (by omega)
  rw [format_time]
  have hfull : Sem.pad_num 2 t.hour ++ ':' ::
      (Sem.pad_num 2 t.minute ++ ':' :: (Sem.pad_num 2 t.second ++ '.' :: Sem.pad_num 6 t.micro)) =
      (Sem.pad_num 2 t.hour ++ ':' ::
        (Sem.pad_num 2 t.minute ++ ':' :: (Sem.pad_num 2 t.second ++ ['.']))) ++
        Sem.pad_num 6 t.micro := by
    simp
  rw [hfull]
  have hA : (Sem.pad_num 2 t.hour ++ ':' ::
      (Sem.pad_num 2 t.minute ++ ':' :: (Sem.pad_num 2 t.second ++ ['.']))).length = 9 := by
    simp [l1, l2, l3]
  rw [List.length_append, hA, l6]
  have h10 : 9 + 6 - 5 = 10 := by omega
  rw [h10, List.take_append_eq_append_take, hA]
  rw [List.take_of_length_le (by rw [hA]; omega)]
  have htake1 : (Sem.pad_num 6 t.micro).take (10 - 9) = [Sem.digit_char (t.micro / 100000)] := by
    have := pad_num_take_one 5 t.micro (by omega)
    simpa using this
  rw [htake1]
  simp

theorem format_date_split (t : DateTime) :
    split_on_char '/' (format_date t) =
      [Sem.pad_num 4 t.year, Sem.pad_num 2 t.month, Sem.pad_num 2 t.day] := by
  rw [format_date]
  rw [split_on_char_append '/' _ _ (pad_num_no_char 4 t.year '/' (by decide))]
  rw [split_on_char_append '/' _ _ (pad_num_no_char 2 t.month '/' (by decide))]
  rw [split_on_char_sepfree '/' _ (pad_num_no_char 2 t.day '/' (by decide))]

theorem format_date_ne_header (t : DateTime) : format_date t ≠ "date".toList := by
  rw [format_date]
  intro h
  cases hp : Sem.pad_num 4 t.year with
  | nil => exact pad_num_ne_nil 4 t.year hp
  | cons c cs =>
    rw [hp] at h
    have hc : c ∈ Sem.pad_num 4 t.year := by
      rw [hp]
      exact List.mem_cons_self c cs
    have hd : c.isDigit = true := pad_num_all_digit 4 t.year c hc
    have hcd : c = 'd' := by
      have := congrArg List.head? h
      simpa using this
    subst hcd
    exact absurd hd (by decide)

theorem parse_format (t : DateTime) (hv : t.valid) :
    parse_date_time (format_date t) (format_time t) = .ok t.trunc_tenths := by
  obtain ⟨h1, h2, h3, h4, h5, h6, h7, h8, h9, h10⟩ := hv
  have htenth : t.micro / 100000 < 10 := by omega
  have hs1 : (split_on_char '/' (format_date t)).mapM Sem.parse_nat =
      some [t.year, t.month, t.day] := by
    rw [format_date_split]
    simp [List.mapM.loop, parse_nat_pad]
  have hs2 : split_on_char ':' (format_time t) =
      [Sem.pad_num 2 t.hour, Sem.pad_num 2 t.minute,
       Sem.pad_num 2 t.second ++ '.' :: [Sem.digit_char (t.micro / 100000)]] := by
    rw [format_time_eq t h7 h8 h9 h10]
    rw [split_on_char_append ':' _ _ (pad_num_no_char 2 t.hour ':' (by decide))]
    rw [split_on_char_append ':' _ _ (pad_num_no_char 2 t.minute ':' (by decide))]
    rw [split_on_char_sepfree ':' _ ?_]
    intro c hc
    rcases List.mem_append.mp hc with hpad | hdot
    · exact pad_num_no_char 2 t.second ':' (by decide) c hpad
    · rcases List.mem_cons.mp hdot with hd | hd
      · subst hd; decide
      · simp only [List.mem_singleton] at hd
        subst hd
        exact isDigit_ne_char _ (digit_char_isDigit _ htenth) ':' (by decide)
  have hs3 : split_on_char '.' (Sem.pad_num 2 t.second ++ '.' ::
      [Sem.digit_char (t.micro / 100000)]) =
      [Sem.pad_num 2 t.second, [Sem.digit_char (t.micro / 100000)]] := by
    rw [split_on_char_append '.' _ _ (pad_num_no_char 2 t.second '.' (by decide))]
    rw [split_on_char_sepfree '.' _ ?_]
    intro c hc
    simp only [List.mem_singleton] at hc
    subst hc
    exact isDigit_ne_char _ (digit_char_isDigit _ htenth) '.' (by decide)
  rw [parse_date_time]
  rw [hs1, hs2]
  simp only [parse_nat_pad, hs3, parse_nat_digit _ htenth]
  rw [mk_datetime, if_pos]
  · rfl
  · refine ⟨h1, h2, h3, h4, h5, h6, h7, h8, h9, ?_⟩
    omega

theorem make_action_header : _make_action header_row = .ok none := by decide

theorem make_action_as_row (a : SAction) (hv : a.time.valid) :
    _make_action a.as_row = .ok (some a.str_fields.trunc_tenths) := by
  cases a with
  | takePic t sh ap iso c =>
    have hv2 : t.valid := hv
    rw [SAction.as_row, _make_action]
    simp only [if_neg (format_date_ne_header t)]
    rw [parse_format t hv2]
    simp [SAction.trunc_tenths, SAction.str_fields]
  | play t f c =>
    have hv2 : t.valid := hv
    rw [SAction.as_row, _make_action]
    simp only [if_neg (format_date_ne_header t)]
    rw [parse_format t hv2]
    have hne : ("PLAY".toList = "PICT".toList) = False := by decide
    simp [SAction.trunc_tenths, SAction.str_fields, hne]

theorem read_csv_rows (acts : List SAction) (h : ∀ a ∈ acts, a.time.valid) :
    read_csv (acts.map SAction.as_row) =
      .ok (acts.map (fun a => a.str_fields.trunc_tenths)) := by
  induction acts with
  | nil => rfl
  | cons a rest ih =>
    simp only [List.map_cons]
    rw [read_csv]
    rw [make_action_as_row a (h a (List.mem_cons_self a rest))]
    rw [ih (fun b hb => h b (List.mem_cons_of_mem a hb))]

theorem frac_digits_zero (fuel : ℕ) : frac_digits fuel 0 = [] := by
  cases fuel <;> simp [frac_digits]

theorem frac_digits_succ (fuel : ℕ) (q : ℚ) :
    frac_digits (fuel + 1) q =
      if q = 0 then []
      else (⌊q * 10⌋).toNat :: frac_digits fuel (q * 10 - (⌊q * 10⌋).toNat) := rfl

theorem frac_digits_step (fuel : ℕ) (q q2 : ℚ) (d : ℕ) (hq : q ≠ 0)
    (hd : ⌊q * 10⌋ = (d : ℤ)) (he : q * 10 - (d : ℚ) = q2) :
    frac_digits (fuel + 1) q = d :: frac_digits fuel q2 := by
  rw [frac_digits_succ, if_neg hq, hd, Int.toNat_natCast, he]

theorem frac_digits_two_thousandths :
    frac_digits 17 ((1 : ℚ)/500) = [0, 0, 2] := by
  rw [show (17 : ℕ) = 16 + 1 from rfl,
    frac_digits_step 16 ((1 : ℚ)/500) ((1 : ℚ)/50) 0 (by norm_num)
      (by rw [Int.floor_eq_iff]; norm_num) (by norm_num)]
  rw [show (16 : ℕ) = 15 + 1 from rfl,
    frac_digits_step 15 ((1 : ℚ)/50) ((1 : ℚ)/5) 0 (by norm_num)
      (by rw [Int.floor_eq_iff]; norm_num) (by norm_num)]
  rw [show (15 : ℕ) = 14 + 1 from rfl,
    frac_digits_step 14 ((1 : ℚ)/5) 0 2 (by norm_num)
      (by rw [Int.floor_eq_iff]; norm_num) (by norm_num)]
  rw [frac_digits_zero]

theorem float_repr_two_thousandths :
    float_repr ((1 : ℚ)/500) = "0.002".toList := by
  have hfl : ⌊(1 : ℚ)/500⌋ = 0 := by rw [Int.floor_eq_iff]; norm_num
  have hsub : (1 : ℚ)/500 - ((0 : ℤ) : ℚ) = (1 : ℚ)/500 := by norm_num
  rw [float_repr, if_neg (by norm_num), float_repr_nonneg, hfl, hsub,
    frac_digits_two_thousandths]
  decide

theorem float_repr_eight : float_repr (8 : ℚ) = "8.0".toList := by
  have hfl : ⌊(8 : ℚ)⌋ = 8 := by rw [Int.floor_eq_iff]; norm_num
  have hsub : (8 : ℚ) - ((8 : ℤ) : ℚ) = 0 := by norm_num
  rw [float_repr, if_neg (by norm_num), float_repr_nonneg, hfl, hsub,
    frac_digits_zero]
  decide

/-- C5 counterexample: writing a compiled capture Action — float shutter
1/500 s, float aperture 8.0, int ISO 100 — and reading the row back yields
an Action whose exposure fields are the strings `"0.002"`, `"8.0"` and
`"100"`, not equal to the original float/int values, so the round trip does
not reproduce every field even though the timestamp is untouched. -/
theorem write_read_numeric_fields_counterexample :
    read_csv (write_csv [compiled_pic]) =
      .ok [SAction.takePic ⟨2024, 4, 8, 18, 40, 1, 900000⟩ (.str "0.002".toList)
        (.str "8.0".toList) (.str "100".toList) (.str "c".toList)] ∧
    SAction.takePic ⟨2024, 4, 8, 18, 40, 1, 900000⟩ (.str "0.002".toList)
        (.str "8.0".toList) (.str "100".toList) (.str "c".toList) ≠ compiled_pic := by
  constructor
  · rw [write_csv]
    simp only [compiled_pic, List.map_cons, List.map_nil, SAction.as_row,
      PyVal.render, float_repr_two_thousandths, float_repr_eight]
    decide
  · simp only [compiled_pic, ne_eq, SAction.takePic.injEq]
    intro h
    exact absurd h.2.1 (by simp)

/-- C5 amended: writing a Sequence to the tabular format and reading it
back reproduces every Action with its timestamp truncated (not rounded) to
one-tenth-second resolution and with every kind-specific field replaced by
the string the `csv` module wrote for it.  The fields come back equal to
the originals only when they are already strings — as in a Sequence that
itself came from `read_csv`; a compiled Sequence's float shutter/aperture
and int ISO return as their decimal renderings. -/
theorem write_read_roundtrip (actions : List SAction)
    (h : ∀ a ∈ actions, a.time.valid) :
    read_csv (write_csv actions) =
      .ok (actions.map (fun a => a.str_fields.trunc_tenths)) := by
  rw [write_csv, read_csv, make_action_header, read_csv_rows actions h]

/-- Witness for C5: a string-field capture action at 18:40:01.960000
round-trips to the same fields at 18:40:01.900000 — microseconds truncated
to the tenth, not rounded up. -/
theorem write_read_roundtrip_witness :
    (∀ a ∈ [SAction.takePic ⟨2024, 4, 8, 18, 40, 1, 960000⟩ (.str "1/500".toList)
        (.str "8".toList) (.str "100".toList) (.str "c".toList)], a.time.valid) ∧
    read_csv (write_csv [SAction.takePic ⟨2024, 4, 8, 18, 40, 1, 960000⟩
        (.str "1/500".toList) (.str "8".toList) (.str "100".toList)
        (.str "c".toList)]) =
      .ok [SAction.takePic ⟨2024, 4, 8, 18, 40, 1, 900000⟩ (.str "1/500".toList)
        (.str "8".toList) (.str "100".toList) (.str "c".toList)] := by
  constructor
  · decide
  · have h := write_read_roundtrip
      [SAction.takePic ⟨2024, 4, 8, 18, 40, 1, 960000⟩ (.str "1/500".toList)
        (.str "8".toList) (.str "100".toList) (.str "c".toList)] (by decide)
    rw [h]
    decide

/-- C6 amended: a data row whose action-kind tag is unknown (or a header
row) is skipped non-fatally and parsing continues; but a row whose
timestamp fails to parse raises `ValueError` out of `read_csv`, aborting the
whole read — the bad row is not dropped individually and the remaining
well-formed rows are lost. -/
theorem read_csv_error_containment :
    (∀ (pre post : List Row) (r : Row), _make_action r = .ok none →
      read_csv (pre ++ r :: post) = read_csv (pre ++ post)) ∧
    (∀ (pre post : List Row) (r : Row) (e : String), _make_action r = .error e →
      ∃ e2, read_csv (pre ++ r :: post) = .error e2) := by
  constructor
  · intro pre
    induction pre with
    | nil =>
      intro post r hr
      simp only [List.nil_append]
      rw [read_csv]
      rw [hr]
      cases hp : read_csv post with
      | error e => simp [hp]
      | ok rest => simp [hp]
    | cons p pre ih =>
      intro post r hr
      simp only [List.cons_append]
      rw [read_csv, read_csv, ih post r hr]
  · intro pre
    induction pre with
    | nil =>
      intro post r e hr
      refine ⟨e, ?_⟩
      simp only [List.nil_append]
      rw [read_csv]
      simp [hr]
    | cons p pre ih =>
      intro post r e hr
      obtain ⟨e2, he2⟩ := ih post r e hr
      simp only [List.cons_append]
      cases hm : _make_action p with
      | error e3 =>
        refine ⟨e3, ?_⟩
        rw [read_csv]
        simp [hm]
      | ok a? =>
        refine ⟨e2, ?_⟩
        rw [read_csv]
        simp [hm, he2]

/-- C6 counterexample: a document with a good row, a row whose timestamp
cell is malformed, and another good row: the read raises and returns no
actions at all — the malformed row is not contained to itself, and the
trailing well-formed row (which parses fine on its own, second conjunct) is
lost. -/
theorem read_csv_malformed_aborts_counterexample :
    read_csv [row_early, row_bad_time, row_late] =
      .error "ValueError: failed to parse date-time string" ∧
    _make_action row_late =
      .ok (some (.takePic ⟨2024, 4, 8, 12, 0, 1, 0⟩ (.str "1".toList)
        (.str "8".toList) (.str "100".toList) (.str "x".toList))) := by
  decide

/-- Witness for C6: the skip rule applied to a concrete unknown-kind row,
and the fatal rule applied to a concrete malformed-timestamp row. -/
theorem read_csv_error_containment_witness :
    (_make_action row_unknown_kind = .ok none ∧
      read_csv ([row_early] ++ row_unknown_kind :: [row_late]) =
        read_csv ([row_early] ++ [row_late])) ∧
    (_make_action row_bad_time = .error "ValueError: failed to parse date-time string" ∧
      ∃ e2, read_csv ([row_early] ++ row_bad_time :: [row_late]) = .error e2) :=
  ⟨⟨by decide,
    read_csv_error_containment.1 [row_early] [row_late] row_unknown_kind (by decide)⟩,
   ⟨by decide,
    read_csv_error_containment.2 [row_early] [row_late] row_bad_time
      "ValueError: failed to parse date-time string" (by decide)⟩⟩

end SemCsv
